import Mathlib

/-!
# createlistofprimes: a shallow embedding and its properties

The development embeds the C sources `commonfunctions.c`, `commonfunctions.h`
and `createlistofprimes.c`.

Conventions of the embedding:

* `Number` (`unsigned long`) is a natural number; where the C arithmetic can
  wrap around, the width `w` of `unsigned long` is an explicit argument and the
  result is reduced modulo `2 ^ w`.
* An array (`Number*`) is the list of the cells from the pointer to the end of
  the allocated block.  Reading or writing a cell behind the end of the block
  and dividing by zero are undefined in C; the embedding reports them as a
  `Fault`.
* Loops whose termination is not structural carry a fuel argument; running out
  of fuel is the fault `outOfFuel`.
* A text is a list of characters.  A file opened for writing is the text
  written to it so far; `fopen` can fail, a write to an open stream appends
  its text and returns the number of characters written.
* `ceil(sqrt(x))` of `<math.h>` is taken as the exact integer ceiling of the
  square root.
-/

namespace CreateListOfPrimes

/-! ## Faults and outcomes -/

/-- The ways in which a run of the embedded C code can fail to produce a value. -/
inductive Fault where
  | divisionByZero
  | outOfBounds
  | outOfFuel
  deriving DecidableEq, Repr

/-- The outcome of running a piece of embedded C code. -/
inductive Outcome (α : Type) where
  | ok (value : α)
  | fault (f : Fault)
  deriving DecidableEq, Repr

/-! ## Types and constants of `commonfunctions.h` -/

/-- The text type: the characters of a C string, without the final NUL. -/
abbrev Text := List Char

/-- The macro `HEADER_LINE_PT1`. -/
def HEADER_LINE_PT1 : Text := "quantity=".toList

/-- The macro `HEADER_LINE_PT2`. -/
def HEADER_LINE_PT2 : Text := ",last=".toList

/-- The macro `FILE_EXTENSION`. -/
def FILE_EXTENSION : Text := ".txt".toList

/-- The macro `FILE_NAME_LONG`. -/
def FILE_NAME_LONG : Text := "lists\\list_of_primes_up_to_".toList

/-- The macro `FILE_NAME_SHORT`. -/
def FILE_NAME_SHORT : Text := "lists\\list_of_primes".toList

/-- The macro `PRIME_LOG_FILE_NAME`. -/
def PRIME_LOG_FILE_NAME : Text := "logs\\primelog".toList

/-- The macro `MAX_NUMBER_SIZE`. -/
def MAX_NUMBER_SIZE : Nat := 81

/-- The enumeration `Mode_t`. -/
inductive Mode_t where
  | NEWNONUM
  | NEWNUM
  | UPDTNONUM
  | UPDTNUM
  | ERROR_MODE
  | NULL_MODE
  deriving DecidableEq, Repr

/-- The integer value of a `Mode_t` constant. -/
def Mode_t.toInt : Mode_t → Int
  | .NEWNONUM => 0
  | .NEWNUM => 1
  | .UPDTNONUM => 2
  | .UPDTNUM => 3
  | .ERROR_MODE => -1
  | .NULL_MODE => -1000

/-- The enumeration `Status_t`. -/
inductive Status_t where
  | SUCCESS
  | FORMAT_ERROR
  | NULL_POINTER_ERROR
  | FILE_ERROR
  | WRITING_ERROR
  | GETCWD_ERROR
  | NO_UPDATE_STATUS
  | NULL_STATUS
  deriving DecidableEq, Repr

/-- The integer value of a `Status_t` constant. -/
def Status_t.toInt : Status_t → Int
  | .SUCCESS => 0
  | .FORMAT_ERROR => -1
  | .NULL_POINTER_ERROR => -2
  | .FILE_ERROR => -3
  | .WRITING_ERROR => -4
  | .GETCWD_ERROR => -5
  | .NO_UPDATE_STATUS => -100
  | .NULL_STATUS => -1000

/-- The constant `ULONG_MAX` of `<limits.h>` for an `unsigned long` of `w` bits. -/
def ULONG_MAX (w : Nat) : Nat := 2 ^ w - 1

/-! ## `isprime` -/

/-- Search for the least `k` with `number ≤ k * k`, starting at `k`. -/
def ceilSqrtFrom (number : Nat) : Nat → Nat → Nat
  | 0, k => k
  | fuel + 1, k => if number ≤ k * k then k else ceilSqrtFrom number fuel (k + 1)

/-- The value of `(Number)ceil(sqrt(number))`: the least `k` with
`number ≤ k * k`. -/
def ceilSqrt (number : Nat) : Nat := ceilSqrtFrom number number 0

/-- The loop `while (*primes <= limit)` of `isprime`; the list holds the cells
from `primes` on.  The result is the final value of `answer`. -/
def isprimeScan (number limit : Nat) : List Nat → Outcome Int
  | [] => .fault .outOfBounds
  | p :: rest =>
    if p ≤ limit then
      if p = 0 then .fault .divisionByZero
      else if number % p = 0 then .ok 0
      else isprimeScan number limit rest
    else .ok 1

/-- The function `isprime` of `commonfunctions.c`. -/
def isprime (number : Nat) (primes : List Nat) : Outcome Int :=
  if number ≤ 5 then
    .ok (if number < 2 ∨ number = 4 then 0 else 1)
  else
    isprimeScan number (ceilSqrt number) primes

/-! ## The list-building loop of `main` -/

/-- The variables of `main` that the list-building loop uses. -/
structure Builder where
  primeslist : List Nat
  counter : Nat
  testnumber : Nat
  deriving DecidableEq, Repr

/-- The loop `while (testnumber <= number)` of `main`, for an `unsigned long`
of `w` bits. -/
def builderLoop (w number : Nat) : Nat → Builder → Outcome Builder
  | 0, _ => .fault .outOfFuel
  | fuel + 1, s =>
    if s.testnumber ≤ number then
      match isprime s.testnumber s.primeslist with
      | .fault f => .fault f
      | .ok answer =>
        if answer ≠ 0 then
          if s.counter < s.primeslist.length then
            builderLoop w number fuel
              { primeslist := s.primeslist.set s.counter s.testnumber,
                counter := (s.counter + 1) % 2 ^ w,
                testnumber := (s.testnumber + 1) % 2 ^ w }
          else .fault .outOfBounds
        else
          builderLoop w number fuel
            { s with testnumber := (s.testnumber + 1) % 2 ^ w }
    else .ok s

/-- The list-building loop of `main` started as `main` starts it: on the
zero-filled block `primeslist`, with `counter = 0` and `testnumber = 0`. -/
def builder (w : Nat) (primeslist : List Nat) (number fuel : Nat) : Outcome Builder :=
  builderLoop w number fuel { primeslist := primeslist, counter := 0, testnumber := 0 }

/-! ## Numbers as text: `snprintf`, `Numbertostr`, `strtoul`, `strtoNumber` -/

/-- The character of a decimal digit. -/
def digitChar : Nat → Char
  | 0 => '0'
  | 1 => '1'
  | 2 => '2'
  | 3 => '3'
  | 4 => '4'
  | 5 => '5'
  | 6 => '6'
  | 7 => '7'
  | 8 => '8'
  | _ => '9'

/-- The decimal digits of `n`, most significant first, in at most `fuel` steps. -/
def decimalFuel : Nat → Nat → Text
  | 0, _ => []
  | fuel + 1, n =>
    if n < 10 then [digitChar n]
    else decimalFuel fuel (n / 10) ++ [digitChar (n % 10)]

/-- The text that the conversion `%lu` of the `printf` family produces. -/
def decimal (n : Nat) : Text := decimalFuel (n + 1) n

/-- The call `snprintf(str, size, "%lu", number)`: the returned value is the
length of the whole numeral, the buffer receives at most `size - 1` of its
characters. -/
def snprintf_lu (size number : Nat) : Int × Text :=
  (((decimal number).length : Nat), (decimal number).take (size - 1))

/-- The function `Numbertostr` of `commonfunctions.c`; `none` is the null
pointer.  The result is the status and the contents of `str`. -/
def Numbertostr (number : Option Nat) : Status_t × Text :=
  match number with
  | none => (.NULL_POINTER_ERROR, [])
  | some n =>
    let r := snprintf_lu MAX_NUMBER_SIZE n
    if 0 ≤ r.1 ∧ r.1 < (MAX_NUMBER_SIZE : Int) then (.SUCCESS, r.2)
    else (.WRITING_ERROR, r.2)

/-- The function `isdigit` of `<ctype.h>` in the C locale. -/
def isdigit (c : Char) : Bool := decide ('0' ≤ c ∧ c ≤ '9')

/-- The function `isspace` of `<ctype.h>` in the C locale. -/
def isspace (c : Char) : Bool :=
  c = ' ' || c = '\t' || c = '\n' || c = Char.ofNat 11 || c = Char.ofNat 12 || c = '\r'

/-- The value of a run of decimal digits, read from the left. -/
def digitsValue (s : Text) : Nat :=
  s.foldl (fun acc c => 10 * acc + (c.toNat - 48)) 0

/-- The call `strtoul(str, NULL, 10)` for an `unsigned long` of `w` bits:
white space is skipped, a sign is read, the longest run of digits is converted;
without a digit the result is 0, a value out of range gives `ULONG_MAX`, and a
minus sign negates the value in the unsigned type. -/
def strtoul (w : Nat) (str : Text) : Nat :=
  let s := str.dropWhile isspace
  let signed : Bool × Text :=
    match s with
    | '-' :: r => (true, r)
    | '+' :: r => (false, r)
    | _ => (false, s)
  let digits := signed.2.takeWhile isdigit
  if digits = [] then 0
  else
    let v := digitsValue digits
    if ULONG_MAX w < v then ULONG_MAX w
    else if signed.1 then (2 ^ w - v) % 2 ^ w
    else v

/-- The function `strtoNumber` of `commonfunctions.c`. -/
def strtoNumber (w : Nat) (str : Text) : Nat :=
  let number := strtoul w str
  if number = ULONG_MAX w then 0 else number

/-- The function `isinvalidnumber` of `commonfunctions.c`. -/
def isinvalidnumber : Text → Int
  | [] => 0
  | c :: str => if !isdigit c then 1 else isinvalidnumber str

/-! ## `makeprimesarray` -/

/-- The function `makeprimesarray` of `commonfunctions.c`.  `pnt limit` stands
for the value of `(Number)ceil(PNT_FACTOR * (limit / log(limit)))`, which the C
library computes in floating point, and `allocates` tells whether `calloc`
succeeds; `none` is the null pointer. -/
def makeprimesarray (pnt : Nat → Nat) (allocates : Bool) (limit : Nat) :
    Option (List Nat) :=
  let listsize := if limit > 1 then pnt limit else 1
  if allocates then some (List.replicate listsize 0) else none

/-! ## `readcommands` -/

/-- The local variables of `readcommands` and the cell `*number`. -/
structure Commands where
  error : Int
  name : Int
  numsaved : Int
  update : Int
  number : Nat
  deriving DecidableEq, Repr

/-- The loop `while (*++argv)` of `readcommands`; the list holds the arguments
from the one the loop looks at next. -/
def readcommandsLoop (w : Nat) : List Text → Commands → Commands
  | [], s => s
  | arg :: rest, s =>
    let isnumber : Bool := isdigit (arg.headD (Char.ofNat 0))
    if isnumber ∧ s.numsaved ≠ 0 then { s with error := 1 }
    else if isnumber then
      if isinvalidnumber arg ≠ 0 then { s with error := 1 }
      else
        let s1 := { s with number := strtoNumber w arg }
        if s1.number = 0 then { s1 with error := 1 }
        else readcommandsLoop w rest { s1 with numsaved := 1 }
    else
      if s.name = 0 ∧ arg = "--file-name".toList then
        readcommandsLoop w rest { s with name := 1 }
      else if s.update = 0 ∧ arg = "--update".toList then
        readcommandsLoop w rest { s with update := 1 }
      else { s with error := 1 }

/-- The function `readcommands` of `commonfunctions.c`.  `argv` holds the
program name followed by the arguments, `number` is the value of `*number` at
the call; the result is the mode and the final value of `*number`. -/
def readcommands (w : Nat) (argv : List Text) (number : Nat) : Mode_t × Nat :=
  let s := readcommandsLoop w argv.tail
    { error := 0, name := 0, numsaved := 0, update := 0, number := number }
  let error : Int := if s.numsaved = 0 then 1 else s.error
  if error ≠ 0 then (.ERROR_MODE, s.number)
  else if s.update ≠ 0 ∧ s.name ≠ 0 then (.UPDTNUM, s.number)
  else if s.update ≠ 0 then (.UPDTNONUM, s.number)
  else if s.name ≠ 0 then (.NEWNUM, s.number)
  else (.NEWNONUM, s.number)

/-! ## Writing the list: `writenumber`, `writeheaderline`, `savelist` -/

/-- The call `fprintf(stream, "%s", s)` on an open stream: the text is
appended and its length is returned. -/
def fprintf (stream s : Text) : Int × Text := ((s.length : Nat), stream ++ s)

/-- The function `writeheaderline` of `commonfunctions.c`; the result is the
status and the stream after the call. -/
def writeheaderline (stream : Text) (quantity lastnumber : Nat) : Status_t × Text :=
  let q := Numbertostr (some quantity)
  if q.1.toInt < 0 then (.WRITING_ERROR, stream)
  else
    let l := Numbertostr (some lastnumber)
    if l.1.toInt < 0 then (.WRITING_ERROR, stream)
    else
      let r := fprintf stream (HEADER_LINE_PT1 ++ q.2 ++ HEADER_LINE_PT2 ++ l.2)
      (if r.1 < 0 then .WRITING_ERROR else .SUCCESS, r.2)

/-- The function `writenumber` of `commonfunctions.c`; the result is the
status and the stream after the call. -/
def writenumber (stream : Text) (number : Nat) : Status_t × Text :=
  let n := Numbertostr (some number)
  if n.1.toInt < 0 then (.WRITING_ERROR, stream)
  else
    let r := fprintf stream n.2
    (if r.1 < 0 then .WRITING_ERROR else .SUCCESS, r.2)

/-- The loop `while (*list)` of `savelist`; the list holds the cells from
`list` on. -/
def savelistLoop : List Nat → Text → Outcome (Status_t × Text)
  | [], _ => .fault .outOfBounds
  | x :: rest, stream =>
    if x ≠ 0 then
      let c := fprintf stream ['\n']
      let n := writenumber c.2 x
      if c.1 < 0 ∨ n.1.toInt < 0 then .ok (.WRITING_ERROR, n.2)
      else savelistLoop rest n.2
    else .ok (.SUCCESS, stream)

/-- The function `savelist` of `commonfunctions.c`.  `canOpen` tells for which
names `fopen(filename, "w")` succeeds; the result is the status and the text of
the file `filename` when the function returns (empty when the file was not
opened). -/
def savelist (canOpen : Text → Bool) (list : List Nat) (quantity : Nat)
    (filename : Text) : Outcome (Status_t × Text) :=
  if !canOpen filename then .ok (.FILE_ERROR, [])
  else
    match list[if quantity > 0 then quantity - 1 else 0]? with
    | none => .fault .outOfBounds
    | some lastnumber =>
      let h := writeheaderline [] quantity lastnumber
      if h.1.toInt < 0 then .ok (.WRITING_ERROR, h.2)
      else savelistLoop list h.2

/-! ## `getfilename`, `saveprimeinlog`, `showpath` -/

/-- The macro `MAX_FILE_NAME_SIZE`. -/
def MAX_FILE_NAME_SIZE : Nat := 115

/-- The call `strcat(dest, src)` where `dest` is an array of `size` characters:
the result is the new contents of `dest`; writing behind the array is a
fault. -/
def strcat (size : Nat) (dest src : Text) : Outcome Text :=
  if dest.length + src.length < size then .ok (dest ++ src) else .fault .outOfBounds

/-- The function `getfilename` of `commonfunctions.c`; `size` is the size of
the array `filename`, `none` is the null pointer.  The result is the status and
the contents of `filename`. -/
def getfilename (size : Nat) (filename : Text) (number : Option Nat) :
    Outcome (Status_t × Text) :=
  match number with
  | some n =>
    let num := Numbertostr (some n)
    if num.1.toInt < 0 then .ok (.WRITING_ERROR, filename)
    else
      match strcat size filename FILE_NAME_LONG with
      | .fault f => .fault f
      | .ok f1 =>
        match strcat size f1 num.2 with
        | .fault f => .fault f
        | .ok f2 =>
          match strcat size f2 FILE_EXTENSION with
          | .fault f => .fault f
          | .ok f3 => .ok (.SUCCESS, f3)
  | none =>
    match strcat size filename FILE_NAME_SHORT with
    | .fault f => .fault f
    | .ok f1 =>
      match strcat size f1 FILE_EXTENSION with
      | .fault f => .fault f
      | .ok f2 => .ok (.SUCCESS, f2)

/-- The function `saveprimeinlog` of `commonfunctions.c`: the status and the
text of the log file, `none` when the file was not opened. -/
def saveprimeinlog (canOpen : Text → Bool) (prime : Nat) : Status_t × Option Text :=
  if !canOpen PRIME_LOG_FILE_NAME then (.FILE_ERROR, none)
  else
    let r := writenumber [] prime
    if r.1.toInt < 0 then (.WRITING_ERROR, some r.2) else (.SUCCESS, some r.2)

/-- One call of `strtok` with the single delimiter `delim` on the text that is
left: the token, if any, and the text left for the next call. -/
def strtok (delim : Char) (s : Text) : Option Text × Text :=
  let s1 := s.dropWhile (fun c => c == delim)
  if s1 = [] then (none, [])
  else (some (s1.takeWhile (fun c => c != delim)), (s1.dropWhile (fun c => c != delim)).drop 1)

/-- The function `showpath` of `commonfunctions.c`; `cwd` is the result of
`_getcwd`.  The result is the status and the text printed. -/
def showpath (cwd : Option Text) (filename : Text) : Status_t × Text :=
  let t1 := strtok '\\' filename
  let t2 := strtok '\\' t1.2
  match t1.1, t2.1 with
  | some folder, some file =>
    match cwd with
    | none => (.GETCWD_ERROR, [])
    | some dirname =>
      (.SUCCESS, "\nThe list of prime numbers was saved in the file ".toList
        ++ [Char.ofNat 39] ++ file ++ [Char.ofNat 39] ++ "...\n\n... in the directory:\n\n".toList
        ++ dirname ++ ['\\'] ++ folder ++ ['\n'])
  | _, _ => (.FORMAT_ERROR, [])

/-! ## `main` -/

/-- The text that the conversion `%d` of `printf` produces. -/
def decimalInt (i : Int) : Text :=
  if i < 0 then '-' :: decimal i.natAbs else decimal i.natAbs

/-- What `main` depends on besides its arguments: the width of
`unsigned long`, the size computed in floating point by `makeprimesarray`,
whether `calloc` succeeds, which files can be opened for writing, the result of
`_getcwd`, and the fuel of the list-building loop. -/
structure Env where
  w : Nat
  pnt : Nat → Nat
  allocates : Bool
  canOpen : Text → Bool
  cwd : Option Text
  fuel : Nat

/-- A run of `main`: the value returned, the variables of `main` at the return,
the text printed, the files opened for writing with their text (in the order of
opening) and the argument of the call of `saveprimeinlog` (`none` when `main`
returned before the call). -/
structure Run where
  exitcode : Int
  mode : Mode_t
  status : Status_t
  number : Nat
  filename : Text
  primeslist : Option (List Nat)
  counter : Nat
  testnumber : Nat
  stdout : Text
  files : List (Text × Text)
  logged : Option Nat
  deriving DecidableEq, Repr

/-- The part of `main` from the call of `savelist` on, with the builder loop
done. -/
def mainSave (env : Env) (r : Run) (primeslist : List Nat) : Outcome Run :=
  match savelist env.canOpen primeslist r.counter r.filename with
  | .fault f => .fault f
  | .ok sv =>
    let files := if sv.1 = .FILE_ERROR then [] else [(r.filename, sv.2)]
    if sv.1 = .SUCCESS then
      let sp := showpath env.cwd r.filename
      let out := r.stdout ++ sp.2 ++
        (if sp.1.toInt < 0 then "\ncreatelistofprimes: error showing path (".toList
          ++ decimalInt sp.1.toInt ++ ")\n".toList else [])
      match primeslist[if r.counter > 0 then r.counter - 1 else 0]? with
      | none => .fault .outOfBounds
      | some prime =>
        let lg := saveprimeinlog env.canOpen prime
        let files2 := files ++ (match lg.2 with
          | none => []
          | some text => [(PRIME_LOG_FILE_NAME, text)])
        if lg.1.toInt < 0 then
          .ok { r with
                status := lg.1,
                stdout := out ++ "\ncreatelistofprimes: error saving log (".toList
                  ++ decimalInt lg.1.toInt ++ ")\n".toList,
                files := files2,
                logged := some prime,
                exitcode := -7 }
        else
          .ok { r with
                status := lg.1,
                stdout := out,
                files := files2,
                logged := some prime,
                exitcode := 0 }
    else
      .ok { r with
            status := sv.1,
            stdout := r.stdout ++ "\ncreatelistofprimes: error creating file (".toList
              ++ decimalInt sv.1.toInt ++ ")\n".toList,
            files := files,
            exitcode := -6 }

/-- The part of `main` after the file name is built: from the test of its
status to the end of the builder loop, then `mainSave`. -/
def mainBuild (env : Env) (r : Run) : Outcome Run :=
  if r.status.toInt < 0 then
    .ok { r with
          stdout := r.stdout ++ "\ncreatelistofprimes: error with file name (".toList
            ++ decimalInt r.status.toInt ++ ")\n".toList,
          exitcode := -4 }
  else
    match makeprimesarray env.pnt env.allocates r.number with
    | none =>
      .ok { r with
            stdout := r.stdout
              ++ "\ncreatelistofprimes: error allocating array of prime numbers\n".toList,
            exitcode := -5 }
    | some block =>
      match builderLoop env.w r.number env.fuel
          { primeslist := block, counter := r.counter, testnumber := r.testnumber } with
      | .fault f => .fault f
      | .ok b =>
        mainSave env
          { r with
            primeslist := some b.primeslist,
            counter := b.counter,
            testnumber := b.testnumber,
            stdout := r.stdout ++ "\nCreating file with prime numbers...\n".toList }
          b.primeslist

/-- The function `main` of `createlistofprimes.c`; `argc` is the length of
`argv`. -/
def main (env : Env) (argv : List Text) : Outcome Run :=
  let r0 : Run :=
    { exitcode := 0, mode := .NULL_MODE, status := .NULL_STATUS, number := 0, filename := [],
      primeslist := none, counter := 0, testnumber := 0, stdout := [], files := [],
      logged := none }
  if (argv.length : Int) > 1 then
    let rc := readcommands env.w argv r0.number
    let r1 : Run := { r0 with mode := rc.1, number := rc.2 }
    if r1.mode.toInt < 0 then
      .ok { r1 with
            stdout := "\ncreatelistofprimes: error with argument format\n".toList,
            exitcode := -2 }
    else if r1.mode = .NEWNUM then
      match getfilename MAX_FILE_NAME_SIZE r1.filename (some r1.number) with
      | .fault f => .fault f
      | .ok g => mainBuild env { r1 with status := g.1, filename := g.2 }
    else if r1.mode = .NEWNONUM then
      match getfilename MAX_FILE_NAME_SIZE r1.filename none with
      | .fault f => .fault f
      | .ok g => mainBuild env { r1 with status := g.1, filename := g.2 }
    else
      .ok { r1 with
            stdout := "\ncreatelistofprimes: command error (".toList
              ++ decimalInt r1.mode.toInt ++ ")\n".toList,
            exitcode := -3 }
  else
    .ok { r0 with
          stdout := "\ncreatelistofprimes: error with argument format\n".toList,
          exitcode := -1 }

/-- One pass through the body of the loop `while (testnumber <= number)` of
`main`. -/
def builderBody (w : Nat) (s : Builder) : Outcome Builder :=
  match isprime s.testnumber s.primeslist with
  | .fault f => .fault f
  | .ok answer =>
    if answer ≠ 0 then
      if s.counter < s.primeslist.length then
        .ok { primeslist := s.primeslist.set s.counter s.testnumber,
              counter := (s.counter + 1) % 2 ^ w,
              testnumber := (s.testnumber + 1) % 2 ^ w }
      else .fault .outOfBounds
    else .ok { s with testnumber := (s.testnumber + 1) % 2 ^ w }

/-- The state of the loop `while (testnumber <= number)` of `main` after `k`
passes through its body; the loop must not have ended before. -/
def builderAfter (w number : Nat) : Nat → Builder → Outcome Builder
  | 0, s => .ok s
  | k + 1, s =>
    if s.testnumber ≤ number then
      match builderBody w s with
      | .fault f => .fault f
      | .ok s1 => builderAfter w number k s1
    else .fault .outOfFuel

/-! ## Reference definitions -/

/-- The reference primality check: `n ≥ 2` and no `d` with `2 ≤ d < n`
divides `n`. -/
def refPrime (n : Nat) : Prop := 2 ≤ n ∧ ∀ d, d < n → 2 ≤ d → ¬ d ∣ n

instance refPrimeDecidable : DecidablePred refPrime := fun n => by
  unfold refPrime; infer_instance

/-- The reference generator: the primes smaller than `n`, in increasing
order. -/
def primesBelow (n : Nat) : List Nat := (List.range n).filter (fun p => decide (refPrime p))

/-- The reference generator: the primes up to `n`, in increasing order. -/
def primesUpTo (n : Nat) : List Nat := primesBelow (n + 1)

/-- The lines of a text: its pieces between line breaks. -/
def textLines (t : Text) : List Text := t.splitOn '\n'

/-- Remove the literal `lead` from the front of `s`, if `s` starts with it. -/
def dropLeading : Text → Text → Option Text
  | [], s => some s
  | _ :: _, [] => none
  | a :: lead, b :: s => if a = b then dropLeading lead s else none

/-- Reader of the header line `quantity=<N>,last=<L>`: the pair `(N, L)`. -/
def readHeader (header : Text) : Option (Nat × Nat) :=
  match dropLeading HEADER_LINE_PT1 header with
  | none => none
  | some r =>
    let quant := r.takeWhile isdigit
    match dropLeading HEADER_LINE_PT2 (r.dropWhile isdigit) with
    | none => none
    | some lastn =>
      if quant ≠ [] ∧ lastn ≠ [] ∧ lastn.all isdigit then
        some (digitsValue quant, digitsValue lastn)
      else none

/-- The state of the builder when `testnumber` has reached `t`, on a block of
`listsize` cells. -/
def builderAt (listsize t : Nat) : Builder :=
  { primeslist := primesBelow t ++ List.replicate (listsize - (primesBelow t).length) 0,
    counter := (primesBelow t).length,
    testnumber := t }

/-- The body that `savelist` writes for the entries `ps`: a line break and the
numeral, for each entry in order. -/
def bodyText (ps : List Nat) : Text := (ps.map (fun p => '\n' :: decimal p)).flatten

/-- The mode that `readcommands` returns without error, from the flags seen. -/
def modeOfFlags (name update : Bool) : Mode_t :=
  if update ∧ name then .UPDTNUM
  else if update then .UPDTNONUM
  else if name then .NEWNUM
  else .NEWNONUM

/-- The test `isdigit(**argv)` of `readcommands` on the token `t`. -/
def startsWithDigit (t : Text) : Bool := isdigit (t.headD (Char.ofNat 0))

/-- The text of the list file for the primes up to `limit`: the header and
the body that `savelist` writes. -/
def listText (limit : Nat) : Text :=
  HEADER_LINE_PT1 ++ decimal (primesUpTo limit).length ++ HEADER_LINE_PT2
    ++ decimal ((primesUpTo limit).getLastD 0) ++ bodyText (primesUpTo limit)

/-- The log file that `saveprimeinlog` leaves, as an entry of `Run.files`. -/
def logFiles (canOpen : Text → Bool) (prime : Nat) : List (Text × Text) :=
  match (saveprimeinlog canOpen prime).2 with
  | none => []
  | some text => [(PRIME_LOG_FILE_NAME, text)]

/-- The name of the list file in the two modes that `main` carries out. -/
def outputName (mode : Mode_t) (limit : Nat) : Text :=
  if mode = .NEWNUM then FILE_NAME_LONG ++ decimal limit ++ FILE_EXTENSION
  else FILE_NAME_SHORT ++ FILE_EXTENSION

/-- The number of cells that `makeprimesarray` asks `calloc` for. -/
def cellsFor (pnt : Nat → Nat) (limit : Nat) : Nat := if limit > 1 then pnt limit else 1

/-! ## The integer ceiling of the square root -/

theorem ceilSqrtFrom_spec (n : Nat) : ∀ fuel k : Nat,
    (∀ j, j < k → j * j < n) → n ≤ (k + fuel) * (k + fuel) →
    n ≤ ceilSqrtFrom n fuel k * ceilSqrtFrom n fuel k ∧
      ∀ j, j < ceilSqrtFrom n fuel k → j * j < n := by
  intro fuel
  induction fuel with
  | zero =>
    intro k hlow hup
    exact ⟨by simpa [ceilSqrtFrom] using hup, by simpa [ceilSqrtFrom] using hlow⟩
  | succ fuel ih =>
    intro k hlow hup
    unfold ceilSqrtFrom
    by_cases hk : n ≤ k * k
    · rw [if_pos hk]
      exact ⟨hk, hlow⟩
    · rw [if_neg hk]
      apply ih (k + 1)
      · intro j hj
        rcases Nat.lt_succ_iff_lt_or_eq.mp hj with h | h
        · exact hlow j h
        · subst h; omega
      · have : k + 1 + fuel = k + (fuel + 1) := by omega
        rw [this]; exact hup

theorem le_ceilSqrt_sq (n : Nat) : n ≤ ceilSqrt n * ceilSqrt n := by
  have h := ceilSqrtFrom_spec n n 0 (fun j hj => absurd hj (Nat.not_lt_zero j))
    (by rw [Nat.zero_add]; exact Nat.le_mul_self n)
  exact h.1

theorem lt_of_lt_ceilSqrt (n j : Nat) (hj : j < ceilSqrt n) : j * j < n := by
  have h := ceilSqrtFrom_spec n n 0 (fun j hj => absurd hj (Nat.not_lt_zero j))
    (by rw [Nat.zero_add]; exact Nat.le_mul_self n)
  exact h.2 j hj

theorem ceilSqrt_le_of_le_sq (n k : Nat) (h : n ≤ k * k) : ceilSqrt n ≤ k := by
  by_contra hc
  have := lt_of_lt_ceilSqrt n k (by omega)
  omega

theorem le_ceilSqrt_of_sq_le (n k : Nat) (h : k * k ≤ n) : k ≤ ceilSqrt n := by
  by_contra hc
  have h1 : ceilSqrt n + 1 ≤ k := by omega
  have h2 := le_ceilSqrt_sq n
  have h3 : (ceilSqrt n + 1) * (ceilSqrt n + 1) ≤ k * k := Nat.mul_le_mul h1 h1
  nlinarith

theorem ceilSqrt_lt_self (n : Nat) (hn : 2 < n) : ceilSqrt n < n := by
  by_contra hc
  have h := lt_of_lt_ceilSqrt n (n - 1) (by omega)
  obtain ⟨m, rfl⟩ : ∃ m, n = m + 3 := ⟨n - 3, by omega⟩
  simp only [Nat.add_sub_cancel, show m + 3 - 1 = m + 2 by omega] at h
  nlinarith

/-! ## The reference check and the reference generator -/

theorem refPrime_iff_prime (n : Nat) : refPrime n ↔ Nat.Prime n := by
  rw [Nat.prime_def_lt']
  unfold refPrime
  constructor
  · rintro ⟨h2, h⟩
    exact ⟨h2, fun m hm hlt => h m hlt hm⟩
  · rintro ⟨h2, h⟩
    exact ⟨h2, fun d hlt hd => h d hd hlt⟩

theorem mem_primesBelow {n p : Nat} : p ∈ primesBelow n ↔ p < n ∧ Nat.Prime p := by
  simp [primesBelow, refPrime_iff_prime]

theorem primesBelow_succ (n : Nat) :
    primesBelow (n + 1) = primesBelow n ++ (if Nat.Prime n then [n] else []) := by
  unfold primesBelow
  rw [List.range_succ, List.filter_append]
  by_cases h : Nat.Prime n
  · simp [h, refPrime_iff_prime]
  · simp [h, refPrime_iff_prime]

theorem primesBelow_sorted (n : Nat) : (primesBelow n).Sorted (· < ·) := by
  unfold primesBelow
  exact List.Pairwise.filter _ (List.pairwise_lt_range n)

theorem primesBelow_ne_zero {n p : Nat} (h : p ∈ primesBelow n) : p ≠ 0 :=
  (mem_primesBelow.mp h).2.pos.ne'

theorem primesBelow_length_le (n : Nat) : (primesBelow n).length ≤ n := by
  unfold primesBelow
  calc ((List.range n).filter _).length ≤ (List.range n).length := List.length_filter_le _ _
    _ = n := List.length_range n

/-! ## The scan of `isprime` -/

theorem isprimeScan_divisor (number limit : Nat) (rest : List Nat) :
    ∀ ps : List Nat, (∀ p ∈ ps, p ≠ 0) → ps.Sorted (· < ·) →
    ∀ q, q ∈ ps → q ≤ limit → q ∣ number →
    isprimeScan number limit (ps ++ rest) = .ok 0 := by
  intro ps
  induction ps with
  | nil => intro _ _ q hq; simp at hq
  | cons p ps ih =>
    intro h0 hs q hq hql hqd
    have hp0 : p ≠ 0 := h0 p (List.mem_cons_self _ _)
    have hrel := List.rel_of_sorted_cons hs
    rcases List.mem_cons.mp hq with rfl | hq'
    · simp only [List.cons_append, isprimeScan, if_pos hql, if_neg hp0,
        if_pos (Nat.mod_eq_zero_of_dvd hqd)]
    · have hpl : p ≤ limit := Nat.le_trans (Nat.le_of_lt (hrel q hq')) hql
      simp only [List.cons_append, isprimeScan, if_pos hpl, if_neg hp0]
      by_cases hd : number % p = 0
      · rw [if_pos hd]
      · rw [if_neg hd]
        exact ih (fun x hx => h0 x (List.mem_cons_of_mem _ hx)) (List.Sorted.of_cons hs)
          q hq' hql hqd

theorem isprimeScan_no_divisor (number limit : Nat) (rest : List Nat) :
    ∀ ps : List Nat, (∀ p ∈ ps, p ≠ 0) → (∀ p ∈ ps, p ≤ limit → ¬ p ∣ number) →
    ∀ r, r ∈ ps → limit < r →
    isprimeScan number limit (ps ++ rest) = .ok 1 := by
  intro ps
  induction ps with
  | nil => intro _ _ r hr; simp at hr
  | cons p ps ih =>
    intro h0 hnd r hr hlr
    have hp0 : p ≠ 0 := h0 p (List.mem_cons_self _ _)
    by_cases hpl : p ≤ limit
    · have hd : ¬ number % p = 0 := fun h =>
        hnd p (List.mem_cons_self _ _) hpl (Nat.dvd_of_mod_eq_zero h)
      simp only [List.cons_append, isprimeScan, if_pos hpl, if_neg hp0, if_neg hd]
      rcases List.mem_cons.mp hr with rfl | hr'
      · omega
      · exact ih (fun x hx => h0 x (List.mem_cons_of_mem _ hx))
          (fun x hx => hnd x (List.mem_cons_of_mem _ hx)) r hr' hlr
    · simp only [List.cons_append, isprimeScan, if_neg hpl]

theorem isprimeScan_sentinel (number limit : Nat) (rest : List Nat) :
    ∀ ps : List Nat, (∀ p ∈ ps, p ≠ 0) → (∀ p ∈ ps, p ≤ limit ∧ ¬ p ∣ number) →
    isprimeScan number limit (ps ++ 0 :: rest) = .fault .divisionByZero := by
  intro ps
  induction ps with
  | nil => intro _ _; simp [isprimeScan]
  | cons p ps ih =>
    intro h0 hnd
    have hp0 : p ≠ 0 := h0 p (List.mem_cons_self _ _)
    have hp := hnd p (List.mem_cons_self _ _)
    have hd : ¬ number % p = 0 := fun h => hp.2 (Nat.dvd_of_mod_eq_zero h)
    simp only [List.cons_append, isprimeScan, if_pos hp.1, if_neg hp0, if_neg hd]
    exact ih (fun x hx => h0 x (List.mem_cons_of_mem _ hx))
      (fun x hx => hnd x (List.mem_cons_of_mem _ hx))

/-- On a block that starts with an increasing list `ps` of primes holding every
prime up to `ceilSqrt number` and, when `number` is prime, a value above
`ceilSqrt number`, `isprime` decides primality. -/
theorem isprime_of_known (number : Nat) (ps rest : List Nat) (h5 : 5 < number)
    (hprime : ∀ p ∈ ps, Nat.Prime p) (hsorted : ps.Sorted (· < ·))
    (hall : ∀ p, Nat.Prime p → p ≤ ceilSqrt number → p ∈ ps)
    (habove : Nat.Prime number → ∃ r ∈ ps, ceilSqrt number < r) :
    isprime number (ps ++ rest) = .ok (if Nat.Prime number then 1 else 0) := by
  have h0 : ∀ p ∈ ps, p ≠ 0 := fun p hp => (hprime p hp).pos.ne'
  unfold isprime
  rw [if_neg (by omega)]
  by_cases hn : Nat.Prime number
  · rw [if_pos hn]
    obtain ⟨r, hr, hlr⟩ := habove hn
    refine isprimeScan_no_divisor number _ rest ps h0 ?_ r hr hlr
    intro p hp hpl hpd
    have hlt : ceilSqrt number < number := ceilSqrt_lt_self number (by omega)
    rcases (Nat.dvd_prime hn).mp hpd with h | h
    · exact (hprime p hp).one_lt.ne' h
    · omega
  · rw [if_neg hn]
    have hmf : Nat.Prime number.minFac := Nat.minFac_prime (by omega)
    have hsq : number.minFac ^ 2 ≤ number := Nat.minFac_sq_le_self (by omega) hn
    have hle : number.minFac ≤ ceilSqrt number :=
      le_ceilSqrt_of_sq_le number _ (by rw [← sq]; exact hsq)
    exact isprimeScan_divisor number _ rest ps h0 hsorted _ (hall _ hmf hle) hle
      (Nat.minFac_dvd number)

/-- Between `ceilSqrt n` and `n` there is a prime, for every `n > 5`. -/
theorem exists_prime_above_ceilSqrt (n : Nat) (h5 : 5 < n) :
    ∃ r, Nat.Prime r ∧ ceilSqrt n < r ∧ r < n := by
  by_cases h9 : n ≤ 9
  · refine ⟨5, by norm_num, ?_, h5⟩
    have : ceilSqrt n ≤ 3 := ceilSqrt_le_of_le_sq n 3 (by omega)
    omega
  · have hc : 4 ≤ ceilSqrt n := by
      by_contra hlt
      have h1 : ceilSqrt n ≤ 3 := by omega
      have h2 := le_ceilSqrt_sq n
      have h3 : ceilSqrt n * ceilSqrt n ≤ 3 * 3 := Nat.mul_le_mul h1 h1
      omega
    obtain ⟨r, hr, hlt, hle⟩ := Nat.exists_prime_lt_and_le_two_mul (ceilSqrt n) (by omega)
    refine ⟨r, hr, hlt, ?_⟩
    have h1 := lt_of_lt_ceilSqrt n (ceilSqrt n - 1) (by omega)
    obtain ⟨c, hceq⟩ : ∃ c, ceilSqrt n = c + 4 := ⟨ceilSqrt n - 4, by omega⟩
    rw [hceq] at h1 hle
    simp only [show c + 4 - 1 = c + 3 by omega] at h1
    nlinarith

/-- In the builder the block starts with the primes below the candidate, and
`isprime` decides primality on it. -/
theorem isprime_primesBelow (number m : Nat) (rest : List Nat) (hm : number ≤ m) (hm1 : m ≤ number + 1) :
    isprime number (primesBelow m ++ rest) = .ok (if Nat.Prime number then 1 else 0) := by
  by_cases h5 : number ≤ 5
  · unfold isprime
    rw [if_pos h5]
    interval_cases number <;> norm_num
  · have h5 : 5 < number := by omega
    apply isprime_of_known number _ rest h5
    · intro p hp; exact (mem_primesBelow.mp hp).2
    · exact primesBelow_sorted m
    · intro p hp hpl
      have := ceilSqrt_lt_self number (by omega)
      exact mem_primesBelow.mpr ⟨by omega, hp⟩
    · intro _
      obtain ⟨r, hr, hlt, hrn⟩ := exists_prime_above_ceilSqrt number h5
      exact ⟨r, mem_primesBelow.mpr ⟨by omega, hr⟩, hlt⟩

/-! ## The list-building loop -/

theorem primesBelow_length_succ_le (n : Nat) :
    (primesBelow n).length ≤ (primesBelow (n + 1)).length := by
  rw [primesBelow_succ, List.length_append]
  exact Nat.le_add_right _ _

theorem primesBelow_length_mono {a b : Nat} (h : a ≤ b) :
    (primesBelow a).length ≤ (primesBelow b).length := by
  induction b, h using Nat.le_induction with
  | base => exact Nat.le_refl _
  | succ b _ ih => exact Nat.le_trans ih (primesBelow_length_succ_le b)

theorem set_append_replicate (ps : List Nat) (k x : Nat) :
    (ps ++ List.replicate (k + 1) 0).set ps.length x = (ps ++ [x]) ++ List.replicate k 0 := by
  induction ps with
  | nil => simp [List.replicate_succ]
  | cons p ps ih => simpa using ih

theorem builderLoop_step (w number listsize t fuel : Nat) (hnum : number < ULONG_MAX w)
    (hcap : (primesBelow (number + 1)).length ≤ listsize) (ht : t ≤ number) :
    builderLoop w number (fuel + 1) (builderAt listsize t) =
      builderLoop w number fuel (builderAt listsize (t + 1)) := by
  have hpow : number + 1 < 2 ^ w := by unfold ULONG_MAX at hnum; omega
  have hlen : (primesBelow (t + 1)).length ≤ listsize :=
    Nat.le_trans (primesBelow_length_mono (by omega)) hcap
  have hlt : (primesBelow (t + 1)).length ≤ t + 1 := primesBelow_length_le _
  have htest : (t + 1) % 2 ^ w = t + 1 := Nat.mod_eq_of_lt (by omega)
  have hip := isprime_primesBelow t t
    (List.replicate (listsize - (primesBelow t).length) 0) (Nat.le_refl _) (Nat.le_succ _)
  rw [builderLoop]
  simp only [builderAt, if_pos ht, hip]
  by_cases hp : Nat.Prime t
  · have hsucc : primesBelow (t + 1) = primesBelow t ++ [t] := by
      rw [primesBelow_succ, if_pos hp]
    rw [hsucc, List.length_append, List.length_singleton] at hlen hlt
    have hcnt : ((primesBelow t).length + 1) % 2 ^ w = (primesBelow t).length + 1 :=
      Nat.mod_eq_of_lt (by omega)
    have hk : listsize - (primesBelow t).length
        = (listsize - ((primesBelow t).length + 1)) + 1 := by omega
    have hin : (primesBelow t).length <
        (primesBelow t ++ List.replicate (listsize - (primesBelow t).length) 0).length := by
      rw [List.length_append, List.length_replicate]; omega
    have hone : (1 : Int) ≠ 0 := by decide
    rw [if_pos hp, if_pos hone, if_pos hin, htest, hcnt, hsucc, List.length_append,
      List.length_singleton]
    congr 2
    rw [hk, set_append_replicate]
  · have hsucc : primesBelow (t + 1) = primesBelow t := by
      rw [primesBelow_succ, if_neg hp, List.append_nil]
    have hzero : ¬ ((0 : Int) ≠ 0) := by decide
    rw [if_neg hp, if_neg hzero, htest, hsucc]

theorem builderLoop_run (w number listsize : Nat) (hnum : number < ULONG_MAX w)
    (hcap : (primesBelow (number + 1)).length ≤ listsize) :
    ∀ d t fuel : Nat, t + d = number + 1 → d + 1 ≤ fuel →
    builderLoop w number fuel (builderAt listsize t) =
      .ok (builderAt listsize (number + 1)) := by
  intro d
  induction d with
  | zero =>
    intro t fuel ht hfuel
    obtain ⟨f, rfl⟩ : ∃ f, fuel = f + 1 := ⟨fuel - 1, by omega⟩
    have : t = number + 1 := by omega
    subst this
    rw [builderLoop]
    simp [builderAt]
  | succ d ih =>
    intro t fuel ht hfuel
    obtain ⟨f, rfl⟩ : ∃ f, fuel = f + 1 := ⟨fuel - 1, by omega⟩
    rw [builderLoop_step w number listsize t f hnum hcap (by omega)]
    exact ih (t + 1) f (by omega) (by omega)

theorem builder_eq (w limit listsize fuel : Nat) (hlimit : limit < ULONG_MAX w)
    (hcap : (primesUpTo limit).length ≤ listsize) (hfuel : limit + 2 ≤ fuel) :
    builder w (List.replicate listsize 0) limit fuel = .ok (builderAt listsize (limit + 1)) := by
  have h := builderLoop_run w limit listsize hlimit hcap (limit + 1) 0 fuel (by omega) (by omega)
  have h0 : builderAt listsize 0 = ⟨List.replicate listsize 0, 0, 0⟩ := by
    simp [builderAt, primesBelow]
  rw [h0] at h
  exact h

/-- With `number = ULONG_MAX` the condition `testnumber <= number` holds in every
state, and the loop never returns. -/
theorem builderLoop_never_returns_at_ULONG_MAX (w : Nat) : ∀ (fuel : Nat) (s r : Builder),
    s.testnumber < 2 ^ w → builderLoop w (ULONG_MAX w) fuel s ≠ .ok r := by
  intro fuel
  induction fuel with
  | zero => intro s r _ h; simp [builderLoop] at h
  | succ fuel ih =>
    intro s r hs
    have hle : s.testnumber ≤ ULONG_MAX w := by unfold ULONG_MAX; omega
    have hmod : (s.testnumber + 1) % 2 ^ w < 2 ^ w := Nat.mod_lt _ (by positivity)
    rw [builderLoop, if_pos hle]
    cases hip : isprime s.testnumber s.primeslist with
    | fault f => simp
    | ok answer =>
      simp only
      by_cases ha : answer ≠ 0
      · rw [if_pos ha]
        by_cases hc : s.counter < s.primeslist.length
        · rw [if_pos hc]
          exact ih _ r hmod
        · rw [if_neg hc]; simp
      · rw [if_neg ha]
        exact ih _ r hmod

theorem primesBelow_length_eq_count (n : Nat) :
    (primesBelow n).length = Nat.count Nat.Prime n := by
  induction n with
  | zero => simp [primesBelow]
  | succ n ih =>
    rw [primesBelow_succ, List.length_append, Nat.count_succ, ih]
    by_cases h : Nat.Prime n <;> simp [h]

theorem primesUpTo_length_eq_primeCounting (limit : Nat) :
    (primesUpTo limit).length = Nat.primeCounting limit :=
  primesBelow_length_eq_count (limit + 1)

theorem mem_primesUpTo {limit p : Nat} : p ∈ primesUpTo limit ↔ p ≤ limit ∧ refPrime p := by
  unfold primesUpTo
  rw [mem_primesBelow, refPrime_iff_prime, Nat.lt_succ_iff]

theorem take_builderAt (listsize t : Nat) :
    (builderAt listsize t).primeslist.take (builderAt listsize t).counter = primesBelow t := by
  simp [builderAt]

/-! ## C1 -/

/-- C1: for every limit below `ULONG_MAX`, on a zero-filled block with at least
as many cells as there are primes up to the limit, the list-building loop of
`main` ends (with any fuel of at least `limit + 2`) and leaves in
`primeslist[0..counter)` exactly the primes `p ≤ limit` of the reference
check, each once, in strictly increasing order, the cells behind them still
zero; `counter` is the number of primes up to the limit. -/
theorem builder_lists_primes (w limit listsize fuel : Nat) (hlimit : limit < ULONG_MAX w)
    (hcap : (primesUpTo limit).length ≤ listsize) (hfuel : limit + 2 ≤ fuel) :
    ∃ s : Builder, builder w (List.replicate listsize 0) limit fuel = .ok s ∧
      s.primeslist = primesUpTo limit ++ List.replicate (listsize - s.counter) 0 ∧
      s.primeslist.take s.counter = primesUpTo limit ∧
      (∀ p, p ∈ s.primeslist.take s.counter ↔ p ≤ limit ∧ refPrime p) ∧
      (s.primeslist.take s.counter).Sorted (· < ·) ∧
      (s.primeslist.take s.counter).Nodup ∧
      s.counter = (primesUpTo limit).length ∧
      s.counter = Nat.primeCounting limit := by
  refine ⟨builderAt listsize (limit + 1), builder_eq w limit listsize fuel hlimit hcap hfuel,
    rfl, ?_, ?_, ?_, ?_, rfl, ?_⟩
  · exact take_builderAt listsize (limit + 1)
  · intro p
    rw [take_builderAt]
    exact mem_primesUpTo
  · rw [take_builderAt]
    exact primesBelow_sorted _
  · rw [take_builderAt]
    exact (primesBelow_sorted _).nodup
  · exact primesUpTo_length_eq_primeCounting limit

/-- Witness of C1: 32 bits, limit 10, a block of 6 cells. -/
theorem builder_lists_primes_witness :
    ∃ s : Builder, builder 32 (List.replicate 6 0) 10 12 = .ok s ∧
      s.primeslist = primesUpTo 10 ++ List.replicate (6 - s.counter) 0 ∧
      s.primeslist.take s.counter = primesUpTo 10 ∧
      (∀ p, p ∈ s.primeslist.take s.counter ↔ p ≤ 10 ∧ refPrime p) ∧
      (s.primeslist.take s.counter).Sorted (· < ·) ∧
      (s.primeslist.take s.counter).Nodup ∧
      s.counter = (primesUpTo 10).length ∧
      s.counter = Nat.primeCounting 10 :=
  builder_lists_primes 32 10 6 12 (by decide) (by decide) (by decide)

/-! ## C2 -/

theorem ite_refPrime (n : Nat) :
    (if Nat.Prime n then (1 : Int) else 0) = (if refPrime n then 1 else 0) := by
  by_cases h : Nat.Prime n
  · rw [if_pos h, if_pos ((refPrime_iff_prime n).mpr h)]
  · rw [if_neg h, if_neg (fun h1 => h ((refPrime_iff_prime n).mp h1))]

/-- C2: for every natural number `n`, `isprime` on the increasing
zero-terminated list of all primes up to `n`, with or without `n` itself,
returns 1 when `n` passes the reference check (`n ≥ 2` and no `d` with
`2 ≤ d < n` divides `n`) and 0 otherwise; `ceilSqrt n` is the exact integer
ceiling of the square root of `n`. -/
theorem isprime_agrees_with_reference (n : Nat) (rest : List Nat) :
    isprime n (primesBelow n ++ 0 :: rest) = .ok (if refPrime n then 1 else 0) ∧
    isprime n (primesUpTo n ++ 0 :: rest) = .ok (if refPrime n then 1 else 0) ∧
    n ≤ ceilSqrt n * ceilSqrt n ∧ ∀ j, j < ceilSqrt n → j * j < n := by
  refine ⟨?_, ?_, le_ceilSqrt_sq n, lt_of_lt_ceilSqrt n⟩
  · rw [← ite_refPrime]
    exact isprime_primesBelow n n _ (Nat.le_refl _) (Nat.le_succ _)
  · rw [← ite_refPrime]
    exact isprime_primesBelow n (n + 1) _ (Nat.le_succ _) (Nat.le_refl _)

/-! ## C5 -/

/-- C5: for every list, also the empty block that has no cell to read,
`isprime` returns 0 for 0, 1 and 4 and returns 1 for 2, 3 and 5; for
`number ≤ 5` the result is the same on any two lists. -/
theorem isprime_small_values (primes : List Nat) :
    isprime 0 primes = .ok 0 ∧ isprime 1 primes = .ok 0 ∧ isprime 2 primes = .ok 1 ∧
    isprime 3 primes = .ok 1 ∧ isprime 4 primes = .ok 0 ∧ isprime 5 primes = .ok 1 ∧
    ∀ number, number ≤ 5 → ∀ other : List Nat,
      isprime number primes = isprime number other ∧ isprime number primes = isprime number [] := by
  refine ⟨by simp [isprime], by simp [isprime], by simp [isprime], by simp [isprime],
    by simp [isprime], by simp [isprime], ?_⟩
  intro number h other
  unfold isprime
  simp only [if_pos h, and_self]

/-! ## C6 -/

/-- C6, as stated, fails: 7 is a candidate above 5 and the zero-terminated
list 2, 3 holds every prime up to `ceilSqrt 7 = 3`, yet the scan of `isprime`
reaches the zero cell and divides by it. -/
theorem isprime_without_larger_value_faults :
    5 < 7 ∧ (∀ p ∈ [2, 3], refPrime p) ∧ [2, 3].Sorted (· < ·) ∧
    (∀ p, refPrime p → p ≤ ceilSqrt 7 → p ∈ [2, 3]) ∧ refPrime 7 ∧
    isprime 7 ([2, 3] ++ [0]) = .fault .divisionByZero ∧
    ¬ (isprime 7 ([2, 3] ++ [0]) = .ok 1) := by
  refine ⟨by decide, by decide, by decide, ?_, by decide, by decide, by decide⟩
  intro p hp hle
  have h3 : ceilSqrt 7 = 3 := by decide
  rw [h3] at hle
  have h2 := hp.1
  interval_cases p <;> simp

/-- C6, amended: for every candidate above 5 and every increasing
zero-terminated list of primes that holds every prime up to
`ceilSqrt candidate` and, when the candidate is prime, a value above
`ceilSqrt candidate`, `isprime` returns without fault: 0 if a listed prime up
to `ceilSqrt candidate` divides the candidate, 1 if none does; it returns 1
exactly when the candidate is prime. -/
theorem isprime_general_case (candidate : Nat) (knownPrimes rest : List Nat)
    (h5 : 5 < candidate)
    (hprime : ∀ p ∈ knownPrimes, refPrime p) (hsorted : knownPrimes.Sorted (· < ·))
    (hall : ∀ p, refPrime p → p ≤ ceilSqrt candidate → p ∈ knownPrimes)
    (habove : refPrime candidate → ∃ r ∈ knownPrimes, ceilSqrt candidate < r) :
    isprime candidate (knownPrimes ++ 0 :: rest) = .ok (if refPrime candidate then 1 else 0) ∧
    ((∃ p ∈ knownPrimes, p ≤ ceilSqrt candidate ∧ p ∣ candidate) →
      isprime candidate (knownPrimes ++ 0 :: rest) = .ok 0) ∧
    ((∀ p ∈ knownPrimes, p ≤ ceilSqrt candidate → ¬ p ∣ candidate) →
      isprime candidate (knownPrimes ++ 0 :: rest) = .ok 1) := by
  have hP : ∀ p ∈ knownPrimes, Nat.Prime p := fun p hp => (refPrime_iff_prime p).mp (hprime p hp)
  have hmain : isprime candidate (knownPrimes ++ 0 :: rest)
      = .ok (if refPrime candidate then 1 else 0) := by
    rw [← ite_refPrime]
    exact isprime_of_known candidate knownPrimes _ h5 hP hsorted
      (fun p hp hle => hall p ((refPrime_iff_prime p).mpr hp) hle)
      (fun hc => habove ((refPrime_iff_prime candidate).mpr hc))
  have hlt : ceilSqrt candidate < candidate := ceilSqrt_lt_self candidate (by omega)
  refine ⟨hmain, ?_, ?_⟩
  · rintro ⟨p, hp, hle, hdvd⟩
    have hnot : ¬ refPrime candidate := by
      intro hc
      rcases (Nat.dvd_prime ((refPrime_iff_prime _).mp hc)).mp hdvd with h | h
      · exact (hP p hp).one_lt.ne' h
      · omega
    rw [hmain, if_neg hnot]
  · intro hnone
    have hc : refPrime candidate := by
      rw [refPrime_iff_prime]
      by_contra hn
      have hmf : Nat.Prime candidate.minFac := Nat.minFac_prime (by omega)
      have hsq : candidate.minFac ^ 2 ≤ candidate := Nat.minFac_sq_le_self (by omega) hn
      have hle : candidate.minFac ≤ ceilSqrt candidate :=
        le_ceilSqrt_of_sq_le candidate _ (by rw [← sq]; exact hsq)
      exact hnone _ (hall _ ((refPrime_iff_prime _).mpr hmf) hle) hle (Nat.minFac_dvd candidate)
    rw [hmain, if_pos hc]

/-- Witness of the amended C6: candidate 7 with the list 2, 3, 5. -/
theorem isprime_general_case_witness :
    isprime 7 ([2, 3, 5] ++ 0 :: []) = .ok (if refPrime 7 then 1 else 0) ∧
    ((∃ p ∈ [2, 3, 5], p ≤ ceilSqrt 7 ∧ p ∣ 7) → isprime 7 ([2, 3, 5] ++ 0 :: []) = .ok 0) ∧
    ((∀ p ∈ [2, 3, 5], p ≤ ceilSqrt 7 → ¬ p ∣ 7) → isprime 7 ([2, 3, 5] ++ 0 :: []) = .ok 1) :=
  isprime_general_case 7 [2, 3, 5] [] (by decide) (by decide) (by decide)
    (by
      intro p hp hle
      have h3 : ceilSqrt 7 = 3 := by decide
      rw [h3] at hle
      have h2 := hp.1
      interval_cases p <;> simp)
    (fun _ => ⟨5, by decide, by decide⟩)

/-! ## Decimal numerals -/

theorem digitChar_isdigit (d : Nat) : isdigit (digitChar d) = true := by
  unfold digitChar
  split <;> decide

theorem digitChar_toNat (d : Nat) (h : d < 10) : (digitChar d).toNat - 48 = d := by
  interval_cases d <;> decide

theorem decimalFuel_ne_nil (fuel n : Nat) : decimalFuel (fuel + 1) n ≠ [] := by
  unfold decimalFuel
  split <;> simp

theorem decimalFuel_isdigit : ∀ fuel n : Nat, ∀ c ∈ decimalFuel fuel n, isdigit c = true := by
  intro fuel
  induction fuel with
  | zero => intro n c hc; simp [decimalFuel] at hc
  | succ fuel ih =>
    intro n c hc
    unfold decimalFuel at hc
    split at hc
    · rw [List.mem_singleton] at hc
      rw [hc]; exact digitChar_isdigit n
    · rcases List.mem_append.mp hc with h | h
      · exact ih _ c h
      · rw [List.mem_singleton] at h
        rw [h]; exact digitChar_isdigit _

theorem digitsValue_append_singleton (s : Text) (c : Char) :
    digitsValue (s ++ [c]) = 10 * digitsValue s + (c.toNat - 48) := by
  simp [digitsValue, List.foldl_append]

theorem digitsValue_decimalFuel : ∀ fuel n : Nat, n < fuel →
    digitsValue (decimalFuel fuel n) = n := by
  intro fuel
  induction fuel with
  | zero => intro n h; omega
  | succ fuel ih =>
    intro n h
    unfold decimalFuel
    by_cases h10 : n < 10
    · rw [if_pos h10]
      have := digitChar_toNat n h10
      simp [digitsValue, this]
    · rw [if_neg h10, digitsValue_append_singleton, ih (n / 10) (by omega),
        digitChar_toNat _ (Nat.mod_lt _ (by decide))]
      omega

theorem decimalFuel_length : ∀ fuel n k : Nat, n < fuel → n < 10 ^ (k + 1) →
    (decimalFuel fuel n).length ≤ k + 1 := by
  intro fuel
  induction fuel with
  | zero => intro n k h; omega
  | succ fuel ih =>
    intro n k h hk
    unfold decimalFuel
    by_cases h10 : n < 10
    · rw [if_pos h10]; simp
    · rw [if_neg h10, List.length_append, List.length_singleton]
      obtain ⟨j, rfl⟩ : ∃ j, k = j + 1 := by
        refine ⟨k - 1, ?_⟩
        rcases k with _ | k
        · simp at hk; omega
        · simp
      have hdiv : n / 10 < 10 ^ (j + 1) := by
        rw [Nat.div_lt_iff_lt_mul (by decide)]
        rw [pow_succ] at hk
        exact hk
      have := ih (n / 10) j (by omega) hdiv
      omega

theorem decimal_ne_nil (n : Nat) : decimal n ≠ [] := decimalFuel_ne_nil n n

theorem decimal_isdigit (n : Nat) : ∀ c ∈ decimal n, isdigit c = true :=
  decimalFuel_isdigit (n + 1) n

theorem decimal_all_isdigit (n : Nat) : (decimal n).all isdigit = true := by
  rw [List.all_eq_true]
  exact decimal_isdigit n

/-- Reading a numeral written by `%lu` gives the number back. -/
theorem digitsValue_decimal (n : Nat) : digitsValue (decimal n) = n :=
  digitsValue_decimalFuel (n + 1) n (Nat.lt_succ_self n)

theorem decimal_injective {a b : Nat} (h : decimal a = decimal b) : a = b := by
  rw [← digitsValue_decimal a, ← digitsValue_decimal b, h]

/-- Some numerals, evaluated. -/
theorem decimal_examples :
    decimal 0 = "0".toList ∧ decimal 7 = "7".toList ∧ decimal 10 = "10".toList ∧
    decimal 4294967295 = "4294967295".toList ∧
    decimal 18446744073709551615 = "18446744073709551615".toList := by
  decide

theorem decimal_length_lt (n : Nat) (h : n < 10 ^ 80) : (decimal n).length < MAX_NUMBER_SIZE := by
  have := decimalFuel_length (n + 1) n 79 (Nat.lt_succ_self n) h
  unfold decimal MAX_NUMBER_SIZE
  omega

theorem newline_not_mem_decimal (n : Nat) : '\n' ∉ decimal n := by
  intro h
  have := decimal_isdigit n _ h
  exact absurd this (by decide)

/-! ## The text written by `savelist` -/

theorem Numbertostr_some (n : Nat) (h : n < 10 ^ 80) :
    Numbertostr (some n) = (.SUCCESS, decimal n) := by
  have hlen := decimal_length_lt n h
  have hint : (((decimal n).length : Nat) : Int) < (MAX_NUMBER_SIZE : Int) := by
    exact_mod_cast hlen
  have hnn : (0 : Int) ≤ (((decimal n).length : Nat) : Int) := Int.natCast_nonneg _
  have htake : (decimal n).take (MAX_NUMBER_SIZE - 1) = decimal n :=
    List.take_of_length_le (by omega)
  simp only [Numbertostr, snprintf_lu, htake]
  rw [if_pos ⟨hnn, hint⟩]

theorem writenumber_ok (stream : Text) (n : Nat) (h : n < 10 ^ 80) :
    writenumber stream n = (.SUCCESS, stream ++ decimal n) := by
  have hnn : ¬ ((((decimal n).length : Nat) : Int) < 0) := by
    have : (0 : Int) ≤ (((decimal n).length : Nat) : Int) := Int.natCast_nonneg _
    omega
  simp only [writenumber, Numbertostr_some n h, fprintf, Status_t.toInt]
  rw [if_neg (by decide), if_neg hnn]

theorem writeheaderline_ok (stream : Text) (quantity lastnumber : Nat)
    (hq : quantity < 10 ^ 80) (hl : lastnumber < 10 ^ 80) :
    writeheaderline stream quantity lastnumber =
      (.SUCCESS, stream ++ (HEADER_LINE_PT1 ++ decimal quantity ++ HEADER_LINE_PT2
        ++ decimal lastnumber)) := by
  have hnn : ¬ ((((HEADER_LINE_PT1 ++ decimal quantity ++ HEADER_LINE_PT2
      ++ decimal lastnumber).length : Nat) : Int) < 0) := by
    have : (0 : Int) ≤ (((HEADER_LINE_PT1 ++ decimal quantity ++ HEADER_LINE_PT2
      ++ decimal lastnumber).length : Nat) : Int) := Int.natCast_nonneg _
    omega
  simp only [writeheaderline, Numbertostr_some quantity hq, Numbertostr_some lastnumber hl,
    fprintf, Status_t.toInt]
  rw [if_neg (by decide), if_neg (by decide), if_neg hnn]

theorem savelistLoop_ok (rest : List Nat) : ∀ (ps : List Nat) (stream : Text),
    (∀ p ∈ ps, p ≠ 0) → (∀ p ∈ ps, p < 10 ^ 80) →
    savelistLoop (ps ++ 0 :: rest) stream = .ok (.SUCCESS, stream ++ bodyText ps) := by
  intro ps
  induction ps with
  | nil => intro stream _ _; simp [savelistLoop, bodyText]
  | cons p ps ih =>
    intro stream hnz hsize
    have hp0 : p ≠ 0 := hnz p (List.mem_cons_self _ _)
    have hps : p < 10 ^ 80 := hsize p (List.mem_cons_self _ _)
    have hone : ¬ (((([('\n' : Char)] : Text).length : Nat) : Int) < 0 ∨ Status_t.SUCCESS.toInt < 0) := by
      decide
    rw [List.cons_append, savelistLoop, if_pos hp0]
    simp only [fprintf, writenumber_ok _ p hps]
    rw [if_neg hone, ih _ (fun x hx => hnz x (List.mem_cons_of_mem _ hx))
      (fun x hx => hsize x (List.mem_cons_of_mem _ hx))]
    simp [bodyText]

theorem getElem?_last_cell (ps rest : List Nat) :
    (ps ++ 0 :: rest)[if ps.length > 0 then ps.length - 1 else 0]? = some (ps.getLastD 0) := by
  rcases List.eq_nil_or_concat ps with rfl | ⟨qs, x, rfl⟩
  · simp
  · rw [List.concat_eq_append]
    have h : (qs ++ [x]).length - 1 = qs.length := by simp
    have hpos : (qs ++ [x]).length > 0 := by simp
    rw [if_pos hpos, h, List.append_assoc, List.getElem?_append_right (Nat.le_refl _)]
    simp

theorem savelist_ok (canOpen : Text → Bool) (ps rest : List Nat) (filename : Text)
    (hopen : canOpen filename = true) (hnz : ∀ p ∈ ps, p ≠ 0)
    (hsize : ∀ p ∈ ps, p < 10 ^ 80) (hq : ps.length < 10 ^ 80) :
    savelist canOpen (ps ++ 0 :: rest) ps.length filename =
      .ok (.SUCCESS, HEADER_LINE_PT1 ++ decimal ps.length ++ HEADER_LINE_PT2
        ++ decimal (ps.getLastD 0) ++ bodyText ps) := by
  have hlast : ps.getLastD 0 < 10 ^ 80 := by
    rcases List.eq_nil_or_concat ps with rfl | ⟨qs, x, rfl⟩
    · simp
    · rw [List.concat_eq_append] at hsize ⊢
      simpa using hsize x (by simp)
  unfold savelist
  simp only [hopen, getElem?_last_cell, writeheaderline_ok [] _ _ hq hlast, Status_t.toInt]
  simp only [Bool.not_true, Bool.false_eq_true, if_false, List.nil_append]
  rw [if_neg (by decide), savelistLoop_ok rest ps _ hnz hsize]

/-! ## Reading the written text back -/

theorem intercalate_header_body : ∀ (ps : List Nat) (header : Text),
    header ++ bodyText ps = ['\n'].intercalate (header :: ps.map decimal) := by
  intro ps
  induction ps with
  | nil => intro header; simp [bodyText, List.intercalate, List.intersperse]
  | cons p ps ih =>
    intro header
    have h := ih (decimal p)
    simp only [List.intercalate, List.map_cons, List.intersperse, List.flatten_cons] at h ⊢
    rw [← h]
    simp [bodyText]

theorem textLines_header_body (header : Text) (ps : List Nat) (hh : '\n' ∉ header) :
    textLines (header ++ bodyText ps) = header :: ps.map decimal := by
  unfold textLines
  rw [intercalate_header_body]
  apply List.splitOn_intercalate
  · intro l hl
    rcases List.mem_cons.mp hl with rfl | hl
    · exact hh
    · obtain ⟨p, _, rfl⟩ := List.mem_map.mp hl
      exact newline_not_mem_decimal p
  · simp

theorem newline_not_mem_header (q l : Nat) :
    '\n' ∉ HEADER_LINE_PT1 ++ decimal q ++ HEADER_LINE_PT2 ++ decimal l := by
  intro h
  simp only [List.mem_append] at h
  rcases h with ((h | h) | h) | h
  · exact absurd h (by decide)
  · exact newline_not_mem_decimal q h
  · exact absurd h (by decide)
  · exact newline_not_mem_decimal l h

theorem dropLeading_append : ∀ (lead s : Text), dropLeading lead (lead ++ s) = some s := by
  intro lead
  induction lead with
  | nil => intro s; simp [dropLeading]
  | cons a lead ih => intro s; simp [dropLeading, ih]

theorem readHeader_header (q l : Nat) :
    readHeader (HEADER_LINE_PT1 ++ decimal q ++ HEADER_LINE_PT2 ++ decimal l) = some (q, l) := by
  have htake : (decimal q ++ (HEADER_LINE_PT2 ++ decimal l)).takeWhile isdigit = decimal q := by
    rw [List.takeWhile_append_of_pos (decimal_isdigit q)]
    simp [HEADER_LINE_PT2, isdigit]
  have hdrop : (decimal q ++ (HEADER_LINE_PT2 ++ decimal l)).dropWhile isdigit
      = HEADER_LINE_PT2 ++ decimal l := by
    rw [List.dropWhile_append_of_pos (decimal_isdigit q)]
    simp [HEADER_LINE_PT2, isdigit]
  unfold readHeader
  rw [List.append_assoc, List.append_assoc, dropLeading_append]
  simp only [htake, hdrop, dropLeading_append]
  rw [if_pos ⟨decimal_ne_nil q, decimal_ne_nil l, decimal_all_isdigit l⟩,
    digitsValue_decimal, digitsValue_decimal]

theorem sorted_le_getLastD (ps : List Nat) (hs : ps.Sorted (· < ·)) :
    ∀ p ∈ ps, p ≤ ps.getLastD 0 := by
  rcases List.eq_nil_or_concat ps with rfl | ⟨qs, x, rfl⟩
  · intro p hp; simp at hp
  · rw [List.concat_eq_append] at hs ⊢
    intro p hp
    have hx : (qs ++ [x]).getLastD 0 = x := by simp
    rw [hx]
    rcases List.mem_append.mp hp with h | h
    · have := (List.pairwise_append.mp hs).2.2 p h x (by simp)
      omega
    · rw [List.mem_singleton] at h
      omega

theorem getLastD_mem (ps : List Nat) (hne : ps ≠ []) : ps.getLastD 0 ∈ ps := by
  rcases List.eq_nil_or_concat ps with rfl | ⟨qs, x, rfl⟩
  · exact absurd rfl hne
  · rw [List.concat_eq_append]; simp

theorem getLastD_eq_getLast (ps : List Nat) (hne : ps ≠ []) : ps.getLastD 0 = ps.getLast hne := by
  rw [List.getLastD_eq_getLast?, List.getLast?_eq_getLast ps hne]
  rfl

/-! ## C3 -/

/-- C3: for every block that starts with `q ≥ 1` non-zero numbers followed by
a zero cell, and `quantity = q`, `savelist` on a file that opens returns
`SUCCESS` and the file holds exactly `quantity=` ++ decimal(q) ++ `,last=` ++
decimal(p_q) followed by, for each p_i in order, a line break and
decimal(p_i); its lines are the header and one numeral per entry, with no line
after the last entry.  The numbers fit the conversion buffer of
`MAX_NUMBER_SIZE` characters. -/
theorem savelist_header_and_body (canOpen : Text → Bool) (ps rest : List Nat) (filename : Text)
    (hopen : canOpen filename = true) (hne : ps ≠ []) (hnz : ∀ p ∈ ps, p ≠ 0)
    (hsize : ∀ p ∈ ps, p < 10 ^ 80) (hq : ps.length < 10 ^ 80) :
    savelist canOpen (ps ++ 0 :: rest) ps.length filename =
      .ok (.SUCCESS, "quantity=".toList ++ decimal ps.length ++ ",last=".toList
        ++ decimal (ps.getLast hne) ++ (ps.map (fun p => '\n' :: decimal p)).flatten) ∧
    textLines ("quantity=".toList ++ decimal ps.length ++ ",last=".toList
        ++ decimal (ps.getLast hne) ++ (ps.map (fun p => '\n' :: decimal p)).flatten) =
      ("quantity=".toList ++ decimal ps.length ++ ",last=".toList ++ decimal (ps.getLast hne))
        :: ps.map decimal := by
  have h := savelist_ok canOpen ps rest filename hopen hnz hsize hq
  rw [getLastD_eq_getLast ps hne] at h
  refine ⟨h, ?_⟩
  exact textLines_header_body _ ps (newline_not_mem_header ps.length (ps.getLast hne))

/-- Witness of C3: the block 2, 3, 5, 7, 0, 0 with quantity 4. -/
theorem savelist_header_and_body_witness :
    savelist (fun _ => true) ([2, 3, 5, 7] ++ 0 :: [0]) [2, 3, 5, 7].length "list.txt".toList =
      .ok (.SUCCESS, "quantity=".toList ++ decimal [2, 3, 5, 7].length ++ ",last=".toList
        ++ decimal ([2, 3, 5, 7].getLast (by decide))
        ++ ([2, 3, 5, 7].map (fun p => '\n' :: decimal p)).flatten) ∧
    textLines ("quantity=".toList ++ decimal [2, 3, 5, 7].length ++ ",last=".toList
        ++ decimal ([2, 3, 5, 7].getLast (by decide))
        ++ ([2, 3, 5, 7].map (fun p => '\n' :: decimal p)).flatten) =
      ("quantity=".toList ++ decimal [2, 3, 5, 7].length ++ ",last=".toList
        ++ decimal ([2, 3, 5, 7].getLast (by decide))) :: [2, 3, 5, 7].map decimal :=
  savelist_header_and_body (fun _ => true) [2, 3, 5, 7] [0] "list.txt".toList rfl (by decide)
    (by decide) (by decide) (by decide)

/-! ## C4 -/

theorem builderAt_block (listsize t : Nat) (hcap : (primesBelow t).length < listsize) :
    (builderAt listsize t).primeslist =
      primesBelow t ++ 0 :: List.replicate (listsize - (primesBelow t).length - 1) 0 := by
  have h : listsize - (primesBelow t).length
      = (listsize - (primesBelow t).length - 1) + 1 := by omega
  simp only [builderAt]
  rw [h, List.replicate_succ]
  simp

/-- The block after the builder loop, saved by `savelist`. -/
theorem savelist_builderAt (w limit listsize : Nat) (canOpen : Text → Bool) (filename : Text)
    (hlimit : limit < ULONG_MAX w) (hdigits : ULONG_MAX w < 10 ^ 80)
    (hcap : (primesUpTo limit).length < listsize) (hopen : canOpen filename = true) :
    savelist canOpen (builderAt listsize (limit + 1)).primeslist
        (builderAt listsize (limit + 1)).counter filename =
      .ok (.SUCCESS, HEADER_LINE_PT1 ++ decimal (primesUpTo limit).length ++ HEADER_LINE_PT2
        ++ decimal ((primesUpTo limit).getLastD 0) ++ bodyText (primesUpTo limit)) := by
  rw [builderAt_block listsize (limit + 1) hcap]
  have hlen : (primesUpTo limit).length ≤ limit + 1 := primesBelow_length_le _
  exact savelist_ok canOpen (primesBelow (limit + 1)) _ filename hopen
    (fun p hp => primesBelow_ne_zero hp)
    (fun p hp => by have := (mem_primesBelow.mp hp).1; omega)
    (by unfold primesUpTo at hlen; omega)

/-- C4: for every limit below `ULONG_MAX` (the limits the program accepts are
among them), on a zero-filled block with more cells than there are primes up to
the limit and a file that opens, the builder loop followed by `savelist`
returns `SUCCESS`; in the text written, the value after `quantity=` is the
number of body lines and the length of the built sequence, the body lines are
the numerals of the sequence, and when the sequence is not empty the value after
`,last=` is the value of the final body line and the largest prime up to the
limit. -/
theorem build_then_save_header_agrees (w limit listsize fuel : Nat) (canOpen : Text → Bool)
    (filename : Text) (hlimit : limit < ULONG_MAX w) (hdigits : ULONG_MAX w < 10 ^ 80)
    (hcap : (primesUpTo limit).length < listsize) (hfuel : limit + 2 ≤ fuel)
    (hopen : canOpen filename = true) :
    ∃ (s : Builder) (text header : Text) (body : List Text) (quantity last : Nat),
      builder w (List.replicate listsize 0) limit fuel = .ok s ∧
      savelist canOpen s.primeslist s.counter filename = .ok (.SUCCESS, text) ∧
      textLines text = header :: body ∧
      readHeader header = some (quantity, last) ∧
      quantity = body.length ∧
      quantity = (s.primeslist.take s.counter).length ∧
      quantity = s.counter ∧
      body = (s.primeslist.take s.counter).map decimal ∧
      body.map digitsValue = s.primeslist.take s.counter ∧
      (s.primeslist.take s.counter ≠ [] →
        body.getLast?.map digitsValue = some last ∧
        refPrime last ∧ last ≤ limit ∧ ∀ p, refPrime p → p ≤ limit → p ≤ last) := by
  have hb := builder_eq w limit listsize fuel hlimit (Nat.le_of_lt hcap) hfuel
  have hs := savelist_builderAt w limit listsize canOpen filename hlimit hdigits hcap hopen
  have htake := take_builderAt listsize (limit + 1)
  have hmap : ((primesUpTo limit).map decimal).map digitsValue = primesUpTo limit := by
    rw [List.map_map]
    have : (digitsValue ∘ decimal) = id := funext digitsValue_decimal
    rw [this, List.map_id]
  refine ⟨builderAt listsize (limit + 1), _,
    HEADER_LINE_PT1 ++ decimal (primesUpTo limit).length ++ HEADER_LINE_PT2
      ++ decimal ((primesUpTo limit).getLastD 0),
    (primesUpTo limit).map decimal, (primesUpTo limit).length, (primesUpTo limit).getLastD 0,
    hb, hs, textLines_header_body _ _ (newline_not_mem_header _ _), readHeader_header _ _,
    by simp, ?_, rfl, ?_, ?_, ?_⟩
  · rw [htake]; rfl
  · rw [htake]; rfl
  · rw [htake]; exact hmap
  · rw [htake]
    intro hne
    have hmem := getLastD_mem (primesUpTo limit) hne
    have hmem2 := mem_primesUpTo.mp hmem
    refine ⟨?_, hmem2.2, hmem2.1, ?_⟩
    · have hne2 : primesUpTo limit ≠ [] := hne
      rw [← List.getLast?_map, hmap, List.getLast?_eq_getLast _ hne2,
        getLastD_eq_getLast _ hne2]
    · intro p hp hle
      exact sorted_le_getLastD (primesUpTo limit) (primesBelow_sorted _) p
        (mem_primesUpTo.mpr ⟨hle, hp⟩)

/-- Witness of C4: 32 bits, limit 10, a block of 6 cells. -/
theorem build_then_save_header_agrees_witness :
    ∃ (s : Builder) (text header : Text) (body : List Text) (quantity last : Nat),
      builder 32 (List.replicate 6 0) 10 12 = .ok s ∧
      savelist (fun _ => true) s.primeslist s.counter "list.txt".toList = .ok (.SUCCESS, text) ∧
      textLines text = header :: body ∧
      readHeader header = some (quantity, last) ∧
      quantity = body.length ∧
      quantity = (s.primeslist.take s.counter).length ∧
      quantity = s.counter ∧
      body = (s.primeslist.take s.counter).map decimal ∧
      body.map digitsValue = s.primeslist.take s.counter ∧
      (s.primeslist.take s.counter ≠ [] →
        body.getLast?.map digitsValue = some last ∧
        refPrime last ∧ last ≤ 10 ∧ ∀ p, refPrime p → p ≤ 10 → p ≤ last) :=
  build_then_save_header_agrees 32 10 6 12 (fun _ => true) "list.txt".toList
    (by decide) (by decide) (by decide) (by decide) rfl

/-! ## C8 -/

/-- C8: for limit 10, on a zero-filled block of more than 4 cells, the builder
loop yields 2, 3, 5, 7 with `counter = 4`, and `savelist` on that block writes
the header `quantity=4,last=7` followed by the body lines 2, 3, 5, 7. -/
theorem limit_ten_scenario (w listsize fuel : Nat) (canOpen : Text → Bool) (filename : Text)
    (hw : 10 < ULONG_MAX w) (hcap : 4 < listsize) (hfuel : 12 ≤ fuel)
    (hopen : canOpen filename = true) :
    builder w (List.replicate listsize 0) 10 fuel =
      .ok { primeslist := [2, 3, 5, 7] ++ List.replicate (listsize - 4) 0,
            counter := 4, testnumber := 11 } ∧
    savelist canOpen ([2, 3, 5, 7] ++ List.replicate (listsize - 4) 0) 4 filename =
      .ok (.SUCCESS, "quantity=4,last=7\n2\n3\n5\n7".toList) ∧
    textLines "quantity=4,last=7\n2\n3\n5\n7".toList =
      ["quantity=4,last=7".toList, "2".toList, "3".toList, "5".toList, "7".toList] := by
  have hp : primesUpTo 10 = [2, 3, 5, 7] := by decide
  have hp' : primesBelow (10 + 1) = [2, 3, 5, 7] := hp
  refine ⟨?_, ?_, by decide⟩
  · rw [builder_eq w 10 listsize fuel hw (by rw [hp]; simp; omega) hfuel]
    simp [builderAt, hp']
  · have hblock : [2, 3, 5, 7] ++ List.replicate (listsize - 4) 0
        = [2, 3, 5, 7] ++ 0 :: List.replicate (listsize - 5) 0 := by
      rw [show listsize - 4 = (listsize - 5) + 1 by omega, List.replicate_succ]
    rw [hblock]
    exact savelist_ok canOpen [2, 3, 5, 7] _ filename hopen (by decide) (by decide) (by decide)

/-- Witness of C8: 32 bits and the block of 6 cells. -/
theorem limit_ten_scenario_witness :
    builder 32 (List.replicate 6 0) 10 12 =
      .ok { primeslist := [2, 3, 5, 7] ++ List.replicate (6 - 4) 0,
            counter := 4, testnumber := 11 } ∧
    savelist (fun _ => true) ([2, 3, 5, 7] ++ List.replicate (6 - 4) 0) 4 "list.txt".toList =
      .ok (.SUCCESS, "quantity=4,last=7\n2\n3\n5\n7".toList) ∧
    textLines "quantity=4,last=7\n2\n3\n5\n7".toList =
      ["quantity=4,last=7".toList, "2".toList, "3".toList, "5".toList, "7".toList] :=
  limit_ten_scenario 32 6 12 (fun _ => true) "list.txt".toList (by decide) (by decide)
    (by decide) rfl

/-! ## C9 -/

/-- C9: for limit 0 and for limit 1 `makeprimesarray` gives a block of one zero
cell, the builder loop appends nothing on a zero-filled block (`counter = 0`,
no cell written), and `savelist` on it with quantity 0 returns `SUCCESS` and
writes exactly `quantity=0,last=0`, a text of one line: the `last` field is the
zero of the first cell. -/
theorem limit_zero_and_one_scenario (w listsize fuel : Nat) (pnt : Nat → Nat)
    (canOpen : Text → Bool) (filename : Text)
    (hw : 1 < ULONG_MAX w) (hcells : 0 < listsize) (hfuel : 3 ≤ fuel)
    (hopen : canOpen filename = true) :
    makeprimesarray pnt true 0 = some (List.replicate 1 0) ∧
    makeprimesarray pnt true 1 = some (List.replicate 1 0) ∧
    builder w (List.replicate listsize 0) 0 fuel =
      .ok { primeslist := List.replicate listsize 0, counter := 0, testnumber := 1 } ∧
    builder w (List.replicate listsize 0) 1 fuel =
      .ok { primeslist := List.replicate listsize 0, counter := 0, testnumber := 2 } ∧
    (List.replicate listsize 0)[0]? = some 0 ∧
    savelist canOpen (List.replicate listsize 0) 0 filename =
      .ok (.SUCCESS, "quantity=0,last=0".toList) ∧
    textLines "quantity=0,last=0".toList = ["quantity=0,last=0".toList] := by
  have h0 : primesBelow (0 + 1) = [] := by decide
  have h1 : primesBelow (1 + 1) = [] := by decide
  have hblock : List.replicate listsize 0 = [] ++ 0 :: List.replicate (listsize - 1) 0 := by
    rw [List.nil_append, ← List.replicate_succ]
    congr 1; omega
  refine ⟨by simp [makeprimesarray], by simp [makeprimesarray], ?_, ?_, ?_, ?_, by decide⟩
  · rw [builder_eq w 0 listsize fuel (by omega) (by simp [primesUpTo, h0]) (by omega)]
    simp [builderAt, h0]
  · rw [builder_eq w 1 listsize fuel hw (by simp [primesUpTo, h1]) hfuel]
    simp [builderAt, h1]
  · rw [hblock]; simp
  · rw [hblock]
    exact savelist_ok canOpen [] _ filename hopen (by simp) (by simp) (by simp)

/-- Witness of C9: 32 bits and the block of one cell. -/
theorem limit_zero_and_one_scenario_witness :
    makeprimesarray (fun _ => 0) true 0 = some (List.replicate 1 0) ∧
    makeprimesarray (fun _ => 0) true 1 = some (List.replicate 1 0) ∧
    builder 32 (List.replicate 1 0) 0 3 =
      .ok { primeslist := List.replicate 1 0, counter := 0, testnumber := 1 } ∧
    builder 32 (List.replicate 1 0) 1 3 =
      .ok { primeslist := List.replicate 1 0, counter := 0, testnumber := 2 } ∧
    (List.replicate 1 0)[0]? = some 0 ∧
    savelist (fun _ => true) (List.replicate 1 0) 0 "list.txt".toList =
      .ok (.SUCCESS, "quantity=0,last=0".toList) ∧
    textLines "quantity=0,last=0".toList = ["quantity=0,last=0".toList] :=
  limit_zero_and_one_scenario 32 1 3 (fun _ => 0) (fun _ => true) "list.txt".toList
    (by decide) (by decide) (by decide) rfl

/-! ## `readcommands` -/

theorem isinvalidnumber_of_digits : ∀ s : Text, (∀ c ∈ s, isdigit c = true) →
    isinvalidnumber s = 0 := by
  intro s
  induction s with
  | nil => intro _; rfl
  | cons c s ih =>
    intro h
    have hc := h c (List.mem_cons_self _ _)
    simp only [isinvalidnumber, hc, Bool.not_true, Bool.false_eq_true, if_false]
    exact ih (fun x hx => h x (List.mem_cons_of_mem _ hx))

theorem isspace_of_isdigit (c : Char) (h : isdigit c = true) : isspace c = false := by
  simp only [isdigit, decide_eq_true_eq] at h
  simp only [isspace, Bool.or_eq_false_iff, decide_eq_false_iff_not]
  refine ⟨⟨⟨⟨⟨?_, ?_⟩, ?_⟩, ?_⟩, ?_⟩, ?_⟩ <;> (intro hc; subst hc; revert h; decide)

theorem strtoul_of_digits (w : Nat) (s : Text) (hne : s ≠ [])
    (hdigits : ∀ c ∈ s, isdigit c = true) :
    strtoul w s = if ULONG_MAX w < digitsValue s then ULONG_MAX w else digitsValue s := by
  obtain ⟨c, t, rfl⟩ := List.exists_cons_of_ne_nil hne
  have hc := hdigits c (List.mem_cons_self _ _)
  have hsp : isspace c = false := isspace_of_isdigit c hc
  have hminus : c ≠ '-' := by intro h; subst h; revert hc; decide
  have hplus : c ≠ '+' := by intro h; subst h; revert hc; decide
  have htake : (c :: t).takeWhile isdigit = c :: t := by
    rw [List.takeWhile_eq_self_iff]; exact hdigits
  have hdrop : (c :: t).dropWhile isspace = c :: t := by
    simp [List.dropWhile, hsp]
  have hsigned : (match c :: t with
      | '-' :: r => (true, r)
      | '+' :: r => (false, r)
      | _ => (false, c :: t)) = (false, c :: t) := by
    split
    · rename_i r heq; exact absurd (List.cons.inj heq).1 hminus
    · rename_i r heq; exact absurd (List.cons.inj heq).1 hplus
    · rfl
  unfold strtoul
  simp only [hdrop, hsigned, htake]
  simp

theorem strtoNumber_of_digits (w : Nat) (s : Text) (hne : s ≠ [])
    (hdigits : ∀ c ∈ s, isdigit c = true) :
    strtoNumber w s = if digitsValue s < ULONG_MAX w then digitsValue s else 0 := by
  unfold strtoNumber
  simp only [strtoul_of_digits w s hne hdigits]
  by_cases h1 : ULONG_MAX w < digitsValue s
  · rw [if_pos h1, if_pos rfl, if_neg (by omega)]
  · rw [if_neg h1]
    by_cases h2 : digitsValue s = ULONG_MAX w
    · rw [if_pos h2, if_neg (by omega)]
    · rw [if_neg h2, if_pos (by omega)]

theorem readcommandsLoop_file_name (w : Nat) (rest : List Text) (s : Commands)
    (h : s.name = 0) :
    readcommandsLoop w ("--file-name".toList :: rest) s =
      readcommandsLoop w rest { s with name := 1 } := by
  have hd : isdigit (("--file-name".toList).headD (Char.ofNat 0)) = false := by decide
  rw [readcommandsLoop]
  simp only [hd, h]
  simp

theorem readcommandsLoop_update (w : Nat) (rest : List Text) (s : Commands)
    (h : s.update = 0) :
    readcommandsLoop w ("--update".toList :: rest) s =
      readcommandsLoop w rest { s with update := 1 } := by
  have hd : isdigit (("--update".toList).headD (Char.ofNat 0)) = false := by decide
  have hne : ¬ ("--update".toList = "--file-name".toList) := by decide
  rw [readcommandsLoop]
  simp only [hd, h, hne]
  simp

theorem readcommandsLoop_numeral (w : Nat) (numeral : Text) (rest : List Text) (s : Commands)
    (hne : numeral ≠ []) (hdigits : ∀ c ∈ numeral, isdigit c = true) (h : s.numsaved = 0) :
    readcommandsLoop w (numeral :: rest) s =
      if strtoNumber w numeral = 0 then
        { s with number := strtoNumber w numeral, error := 1 }
      else
        readcommandsLoop w rest { s with number := strtoNumber w numeral, numsaved := 1 } := by
  obtain ⟨c, t, rfl⟩ := List.exists_cons_of_ne_nil hne
  have hc : isdigit c = true := hdigits c (List.mem_cons_self _ _)
  have hinv := isinvalidnumber_of_digits (c :: t) hdigits
  rw [readcommandsLoop]
  simp only [List.headD_cons, hc, h, hinv]
  simp

theorem readcommandsLoop_flags (w : Nat) (rest : List Text) : ∀ (fl : List Text) (s : Commands),
    (∀ t ∈ fl, t = "--file-name".toList ∨ t = "--update".toList) → fl.Nodup →
    ("--file-name".toList ∈ fl → s.name = 0) → ("--update".toList ∈ fl → s.update = 0) →
    readcommandsLoop w (fl ++ rest) s = readcommandsLoop w rest
      { s with name := if "--file-name".toList ∈ fl then 1 else s.name,
               update := if "--update".toList ∈ fl then 1 else s.update } := by
  have hne : ¬ ("--update".toList = "--file-name".toList) := by decide
  have hne' : ¬ ("--file-name".toList = "--update".toList) := by decide
  intro fl
  induction fl with
  | nil => intro s _ _ _ _; simp
  | cons t fl ih =>
    intro s hfl hnd hname hupd
    have hnd' := (List.nodup_cons.mp hnd)
    have hfl' : ∀ t ∈ fl, t = "--file-name".toList ∨ t = "--update".toList :=
      fun x hx => hfl x (List.mem_cons_of_mem _ hx)
    rcases hfl t (List.mem_cons_self _ _) with rfl | rfl
    · rw [List.cons_append, readcommandsLoop_file_name w _ s (hname (List.mem_cons_self _ _)),
        ih { s with name := 1 } hfl' hnd'.2 (fun h => absurd h hnd'.1)
          (fun h => hupd (List.mem_cons_of_mem _ h))]
      simp only [List.mem_cons, hne, false_or, true_or, ite_self, if_true]
    · rw [List.cons_append, readcommandsLoop_update w _ s (hupd (List.mem_cons_self _ _)),
        ih { s with update := 1 } hfl' hnd'.2 (fun h => hname (List.mem_cons_of_mem _ h))
          (fun h => absurd h hnd'.1)]
      simp only [List.mem_cons, hne', false_or, true_or, ite_self, if_true]

theorem readcommands_without_numeral (w : Nat) (prog : Text) (flags : List Text) (n0 : Nat)
    (hflags : ∀ t ∈ flags, t = "--file-name".toList ∨ t = "--update".toList)
    (hnodup : flags.Nodup) :
    readcommands w (prog :: flags) n0 = (.ERROR_MODE, n0) := by
  have h := readcommandsLoop_flags w [] flags
    { error := 0, name := 0, numsaved := 0, update := 0, number := n0 }
    hflags hnodup (fun _ => rfl) (fun _ => rfl)
  rw [List.append_nil] at h
  unfold readcommands
  simp only [List.tail_cons, h, readcommandsLoop]
  simp

theorem readcommands_with_numeral (w : Nat) (prog : Text) (pre post : List Text)
    (numeral : Text) (n0 : Nat)
    (hflags : ∀ t ∈ pre ++ post, t = "--file-name".toList ∨ t = "--update".toList)
    (hnodup : (pre ++ post).Nodup)
    (hne : numeral ≠ []) (hdigits : ∀ c ∈ numeral, isdigit c = true) :
    readcommands w (prog :: (pre ++ numeral :: post)) n0 =
      if 0 < digitsValue numeral ∧ digitsValue numeral < ULONG_MAX w then
        (modeOfFlags (decide ("--file-name".toList ∈ pre ++ post))
          (decide ("--update".toList ∈ pre ++ post)), digitsValue numeral)
      else (.ERROR_MODE, 0) := by
  have hpre := readcommandsLoop_flags w (numeral :: post) pre
    { error := 0, name := 0, numsaved := 0, update := 0, number := n0 }
    (fun t ht => hflags t (List.mem_append_left _ ht)) (List.Nodup.of_append_left hnodup)
    (fun _ => rfl) (fun _ => rfl)
  have hdisj := List.disjoint_of_nodup_append hnodup
  unfold readcommands
  rw [List.tail_cons, hpre, readcommandsLoop_numeral w numeral post _ hne hdigits rfl,
    strtoNumber_of_digits w numeral hne hdigits]
  by_cases hv : 0 < digitsValue numeral ∧ digitsValue numeral < ULONG_MAX w
  · have hnz : ¬ ((if digitsValue numeral < ULONG_MAX w then digitsValue numeral else 0) = 0) := by
      rw [if_pos hv.2]; omega
    rw [if_neg hnz, if_pos hv, if_pos hv.2]
    have hpost := readcommandsLoop_flags w [] post
      { error := 0, name := if "--file-name".toList ∈ pre then 1 else 0, numsaved := 1,
        update := if "--update".toList ∈ pre then 1 else 0, number := digitsValue numeral }
      (fun t ht => hflags t (List.mem_append_right _ ht)) (List.Nodup.of_append_right hnodup)
      (fun h => by
        have : "--file-name".toList ∉ pre := fun h1 => hdisj h1 h
        exact if_neg this)
      (fun h => by
        have : "--update".toList ∉ pre := fun h1 => hdisj h1 h
        exact if_neg this)
    rw [List.append_nil] at hpost
    simp only [hpost, readcommandsLoop]
    by_cases hf1 : "--file-name".toList ∈ pre <;> by_cases hf2 : "--file-name".toList ∈ post <;>
      by_cases hu1 : "--update".toList ∈ pre <;> by_cases hu2 : "--update".toList ∈ post <;>
      simp only [hf1, hf2, hu1, hu2, List.mem_append, if_true, if_false, true_or, or_true,
        or_self, ite_self] <;>
      simp [modeOfFlags]
  · have hz : (if digitsValue numeral < ULONG_MAX w then digitsValue numeral else 0) = 0 := by
      by_cases h2 : digitsValue numeral < ULONG_MAX w
      · rw [if_pos h2]; omega
      · rw [if_neg h2]
    rw [if_pos hz, if_neg hv]
    simp [hz]

theorem modeOfFlags_ne_error (name update : Bool) : modeOfFlags name update ≠ .ERROR_MODE := by
  cases name <;> cases update <;> decide

/-! ## C10 -/

/-- C10: for every argument vector whose flags are `--file-name` and `--update`,
none repeated, and that holds at most one token made only of decimal digits, of
value `v`: without the numeral `readcommands` returns `ERROR_MODE`; with it,
`readcommands` returns a mode other than `ERROR_MODE` and stores `v` in
`*number` if and only if `0 < v < ULONG_MAX`, and returns `ERROR_MODE` when
`v = 0` or `v ≥ ULONG_MAX`. -/
theorem readcommands_limit_range (w : Nat) (prog : Text) (pre post : List Text)
    (numeral : Text) (n0 : Nat)
    (hflags : ∀ t ∈ pre ++ post, t = "--file-name".toList ∨ t = "--update".toList)
    (hnodup : (pre ++ post).Nodup)
    (hne : numeral ≠ []) (hdigits : ∀ c ∈ numeral, isdigit c = true) :
    (readcommands w (prog :: (pre ++ post)) n0).1 = .ERROR_MODE ∧
    (((readcommands w (prog :: (pre ++ numeral :: post)) n0).1 ≠ .ERROR_MODE ∧
        (readcommands w (prog :: (pre ++ numeral :: post)) n0).2 = digitsValue numeral) ↔
      (0 < digitsValue numeral ∧ digitsValue numeral < ULONG_MAX w)) ∧
    ((digitsValue numeral = 0 ∨ ULONG_MAX w ≤ digitsValue numeral) →
      (readcommands w (prog :: (pre ++ numeral :: post)) n0).1 = .ERROR_MODE) := by
  have h := readcommands_with_numeral w prog pre post numeral n0 hflags hnodup hne hdigits
  refine ⟨?_, ?_, ?_⟩
  · rw [readcommands_without_numeral w prog (pre ++ post) n0 hflags hnodup]
  · constructor
    · intro hmode
      by_contra hv
      rw [h, if_neg hv] at hmode
      exact hmode.1 rfl
    · intro hv
      rw [h, if_pos hv]
      exact ⟨modeOfFlags_ne_error _ _, rfl⟩
  · intro hv
    have hnot : ¬ (0 < digitsValue numeral ∧ digitsValue numeral < ULONG_MAX w) := by omega
    rw [h, if_neg hnot]

/-- Witness of C10: 32 bits, the arguments `--file-name 30 --update`. -/
theorem readcommands_limit_range_witness :
    (readcommands 32 ("createlistofprimes".toList :: (["--file-name".toList]
        ++ ["--update".toList])) 0).1 = .ERROR_MODE ∧
    (((readcommands 32 ("createlistofprimes".toList :: (["--file-name".toList]
          ++ "30".toList :: ["--update".toList])) 0).1 ≠ .ERROR_MODE ∧
        (readcommands 32 ("createlistofprimes".toList :: (["--file-name".toList]
          ++ "30".toList :: ["--update".toList])) 0).2 = digitsValue "30".toList) ↔
      (0 < digitsValue "30".toList ∧ digitsValue "30".toList < ULONG_MAX 32)) ∧
    ((digitsValue "30".toList = 0 ∨ ULONG_MAX 32 ≤ digitsValue "30".toList) →
      (readcommands 32 ("createlistofprimes".toList :: (["--file-name".toList]
          ++ "30".toList :: ["--update".toList])) 0).1 = .ERROR_MODE) :=
  readcommands_limit_range 32 "createlistofprimes".toList ["--file-name".toList]
    ["--update".toList] "30".toList 0 (by decide) (by decide) (by decide) (by decide)

/-- The numerals `0` and `000` and, on 32 bits, `4294967295` and `4294967296`
are rejected; `4294967294` is accepted. -/
theorem readcommands_limit_examples :
    readcommands 32 ["createlistofprimes".toList, "0".toList] 7 = (.ERROR_MODE, 0) ∧
    readcommands 32 ["createlistofprimes".toList, "000".toList] 7 = (.ERROR_MODE, 0) ∧
    readcommands 32 ["createlistofprimes".toList, "4294967295".toList] 7 = (.ERROR_MODE, 0) ∧
    readcommands 32 ["createlistofprimes".toList, "4294967296".toList] 7 = (.ERROR_MODE, 0) ∧
    readcommands 32 ["createlistofprimes".toList, "4294967294".toList] 7
      = (.NEWNONUM, 4294967294) := by
  decide

/-! ## C19 -/

/-- C19: there is a composite candidate above 5 and an increasing
zero-terminated list of primes that omits a prime up to the rounded-up square
root of the candidate, on which `isprime` returns 1 without fault: candidate 49
with the list 2, 3, 5, 11, which omits 7. -/
theorem isprime_wrong_answer_outside_contract :
    ∃ (candidate : Nat) (knownPrimes : List Nat) (omitted : Nat),
      candidate = 49 ∧ knownPrimes = [2, 3, 5, 11] ∧ omitted = 7 ∧
      5 < candidate ∧ ¬ refPrime candidate ∧
      knownPrimes.Sorted (· < ·) ∧ (∀ p ∈ knownPrimes, refPrime p) ∧
      refPrime omitted ∧ omitted ≤ ceilSqrt candidate ∧ omitted ∉ knownPrimes ∧
      isprime candidate (knownPrimes ++ [0]) = .ok 1 := by
  refine ⟨49, [2, 3, 5, 11], 7, rfl, rfl, rfl, ?_⟩
  decide

/-! ## C11 -/

/-- The result of `readcommands` on one numeral and a duplicate-free list of
flags, in any order. -/
theorem readcommands_perm (w : Nat) (prog : Text) (args flags : List Text) (numeral : Text)
    (n0 : Nat) (hperm : args.Perm (numeral :: flags))
    (hflags : ∀ t ∈ flags, t = "--file-name".toList ∨ t = "--update".toList)
    (hnodup : flags.Nodup)
    (hne : numeral ≠ []) (hdigits : ∀ c ∈ numeral, isdigit c = true) :
    readcommands w (prog :: args) n0 =
      if 0 < digitsValue numeral ∧ digitsValue numeral < ULONG_MAX w then
        (modeOfFlags (decide ("--file-name".toList ∈ flags))
          (decide ("--update".toList ∈ flags)), digitsValue numeral)
      else (.ERROR_MODE, 0) := by
  have hmem : numeral ∈ args := hperm.mem_iff.mpr (List.mem_cons_self _ _)
  obtain ⟨pre, post, rfl⟩ := List.append_of_mem hmem
  have hp : (pre ++ post).Perm flags :=
    (List.perm_middle.symm.trans hperm).cons_inv
  have h := readcommands_with_numeral w prog pre post numeral n0
    (fun t ht => hflags t (hp.mem_iff.mp ht)) (hp.nodup_iff.mpr hnodup) hne hdigits
  have hf : decide ("--file-name".toList ∈ pre ++ post) = decide ("--file-name".toList ∈ flags) :=
    decide_eq_decide.mpr hp.mem_iff
  have hu : decide ("--update".toList ∈ pre ++ post) = decide ("--update".toList ∈ flags) :=
    decide_eq_decide.mpr hp.mem_iff
  rw [h, hf, hu]

/-- C11: for every numeral made of digits with `0 < value < ULONG_MAX` and every
ordering of the arguments, the numeral alone gives `NEWNONUM`, with
`--file-name` it gives `NEWNUM`, with `--update` it gives `UPDTNONUM`, with both
flags it gives `UPDTNUM`; in each case `*number` is the value of the numeral. -/
theorem readcommands_four_modes (w : Nat) (prog numeral : Text) (n0 : Nat)
    (hne : numeral ≠ []) (hdigits : ∀ c ∈ numeral, isdigit c = true)
    (hpos : 0 < digitsValue numeral) (hmax : digitsValue numeral < ULONG_MAX w) :
    (∀ args : List Text, args.Perm [numeral] →
      readcommands w (prog :: args) n0 = (.NEWNONUM, digitsValue numeral)) ∧
    (∀ args : List Text, args.Perm [numeral, "--file-name".toList] →
      readcommands w (prog :: args) n0 = (.NEWNUM, digitsValue numeral)) ∧
    (∀ args : List Text, args.Perm [numeral, "--update".toList] →
      readcommands w (prog :: args) n0 = (.UPDTNONUM, digitsValue numeral)) ∧
    (∀ args : List Text, args.Perm [numeral, "--file-name".toList, "--update".toList] →
      readcommands w (prog :: args) n0 = (.UPDTNUM, digitsValue numeral)) := by
  refine ⟨?_, ?_, ?_, ?_⟩
  · intro args hperm
    rw [readcommands_perm w prog args [] numeral n0 hperm (by decide) (by decide) hne hdigits,
      if_pos ⟨hpos, hmax⟩]
    rfl
  · intro args hperm
    rw [readcommands_perm w prog args ["--file-name".toList] numeral n0 hperm (by decide)
      (by decide) hne hdigits, if_pos ⟨hpos, hmax⟩]
    rfl
  · intro args hperm
    rw [readcommands_perm w prog args ["--update".toList] numeral n0 hperm (by decide)
      (by decide) hne hdigits, if_pos ⟨hpos, hmax⟩]
    rfl
  · intro args hperm
    rw [readcommands_perm w prog args ["--file-name".toList, "--update".toList] numeral n0 hperm
      (by decide) (by decide) hne hdigits, if_pos ⟨hpos, hmax⟩]
    rfl

/-- Witness of C11: 32 bits and the numeral 30. -/
theorem readcommands_four_modes_witness :
    (∀ args : List Text, args.Perm ["30".toList] →
      readcommands 32 ("createlistofprimes".toList :: args) 0
        = (.NEWNONUM, digitsValue "30".toList)) ∧
    (∀ args : List Text, args.Perm ["30".toList, "--file-name".toList] →
      readcommands 32 ("createlistofprimes".toList :: args) 0
        = (.NEWNUM, digitsValue "30".toList)) ∧
    (∀ args : List Text, args.Perm ["30".toList, "--update".toList] →
      readcommands 32 ("createlistofprimes".toList :: args) 0
        = (.UPDTNONUM, digitsValue "30".toList)) ∧
    (∀ args : List Text, args.Perm ["30".toList, "--file-name".toList, "--update".toList] →
      readcommands 32 ("createlistofprimes".toList :: args) 0
        = (.UPDTNUM, digitsValue "30".toList)) :=
  readcommands_four_modes 32 "createlistofprimes".toList "30".toList 0 (by decide) (by decide)
    (by decide) (by decide)

/-! ## `readcommands` on arbitrary arguments -/

theorem strtoul_le (w : Nat) (str : Text) : strtoul w str ≤ ULONG_MAX w := by
  have hpos : 0 < 2 ^ w := by positivity
  unfold strtoul
  dsimp only
  split_ifs with h1 h2 h3
  · exact Nat.zero_le _
  · exact Nat.le_refl _
  · have := Nat.mod_lt (2 ^ w - digitsValue (List.takeWhile isdigit
      (match List.dropWhile isspace str with
        | '-' :: r => (true, r)
        | '+' :: r => (false, r)
        | _ => (false, List.dropWhile isspace str)).2)) hpos
    unfold ULONG_MAX
    omega
  · omega

theorem strtoNumber_lt (w : Nat) (str : Text) (h : strtoNumber w str ≠ 0) :
    strtoNumber w str < ULONG_MAX w := by
  have hle := strtoul_le w str
  unfold strtoNumber at h ⊢
  dsimp only at h ⊢
  split_ifs with h1
  · rw [if_pos h1] at h; exact absurd rfl h
  · omega

theorem isdigit_of_isinvalidnumber : ∀ t : Text, isinvalidnumber t = 0 →
    ∀ c ∈ t, isdigit c = true := by
  intro t
  induction t with
  | nil => intro _ c hc; simp at hc
  | cons a t ih =>
    intro h c hc
    rw [isinvalidnumber] at h
    by_cases ha : isdigit a = true
    · simp only [ha, Bool.not_true, Bool.false_eq_true, if_false] at h
      rcases List.mem_cons.mp hc with rfl | hc
      · exact ha
      · exact ih h c hc
    · simp only [Bool.not_eq_true] at ha
      simp [ha] at h

/-- Whenever `numsaved` is set, `*number` is above 0 and below `ULONG_MAX`. -/
theorem readcommandsLoop_number_range (w : Nat) : ∀ (args : List Text) (s : Commands),
    (s.numsaved ≠ 0 → 0 < s.number ∧ s.number < ULONG_MAX w) →
    ((readcommandsLoop w args s).numsaved ≠ 0 →
      0 < (readcommandsLoop w args s).number ∧
        (readcommandsLoop w args s).number < ULONG_MAX w) := by
  intro args
  induction args with
  | nil => intro s h; simpa [readcommandsLoop] using h
  | cons arg rest ih =>
    intro s h
    rw [readcommandsLoop]
    dsimp only
    split_ifs with h1 h2 h3 h4 h5 h6
    · exact h
    · exact h
    · intro hn
      exact absurd hn (by
        have : s.numsaved = 0 := by
          by_contra hc
          exact h1 ⟨h2, hc⟩
        simpa using this)
    · apply ih
      intro _
      exact ⟨Nat.pos_of_ne_zero h4, strtoNumber_lt w arg h4⟩
    · exact ih _ h
    · exact ih _ h
    · exact h

/-- A return of `readcommands` without error stores a limit above 0 and below
`ULONG_MAX`. -/
theorem readcommands_stored_range (w : Nat) (argv : List Text) (n0 : Nat)
    (h : (readcommands w argv n0).1 ≠ .ERROR_MODE) :
    0 < (readcommands w argv n0).2 ∧ (readcommands w argv n0).2 < ULONG_MAX w := by
  have hr := readcommandsLoop_number_range w argv.tail
    { error := 0, name := 0, numsaved := 0, update := 0, number := n0 }
    (fun hc => absurd rfl hc)
  unfold readcommands at h ⊢
  dsimp only at h ⊢
  by_cases hs : (readcommandsLoop w argv.tail
      { error := 0, name := 0, numsaved := 0, update := 0, number := n0 }).numsaved = 0
  · simp [hs] at h
  · have hnum := hr hs
    split_ifs <;> exact hnum

/-- When the loop of `readcommands` ends with `error = 0`, every argument was
read: the tokens that start with a digit are made of digits, the other tokens
are flags, and no kind of token occurs twice. -/
theorem readcommandsLoop_no_error (w : Nat) : ∀ (args : List Text) (s : Commands),
    (readcommandsLoop w args s).error = 0 →
    (∀ t ∈ args, startsWithDigit t = true → ∀ c ∈ t, isdigit c = true) ∧
    (∀ t ∈ args, startsWithDigit t = false →
      t = "--file-name".toList ∨ t = "--update".toList) ∧
    (args.countP startsWithDigit ≤ 1 ∧ (s.numsaved ≠ 0 → args.countP startsWithDigit = 0)) ∧
    (args.count "--file-name".toList ≤ 1 ∧ (s.name ≠ 0 → args.count "--file-name".toList = 0)) ∧
    (args.count "--update".toList ≤ 1 ∧ (s.update ≠ 0 → args.count "--update".toList = 0)) := by
  have hF : startsWithDigit "--file-name".toList = false := by decide
  have hU : startsWithDigit "--update".toList = false := by decide
  have hFU : "--file-name".toList ≠ "--update".toList := by decide
  have hone : (1 : Int) ≠ 0 := by decide
  intro args
  induction args with
  | nil => intro s _; simp
  | cons arg rest ih =>
    intro s h
    rw [readcommandsLoop] at h
    dsimp only at h
    split_ifs at h with h1 h2 h3 h4 h5 h6
    · exact absurd h hone
    · exact absurd h hone
    · exact absurd h hone
    · have hsd : startsWithDigit arg = true := h2
      have hdig := isdigit_of_isinvalidnumber arg (not_not.mp h3)
      have hs0 : s.numsaved = 0 := by
        by_contra hc
        exact h1 ⟨h2, hc⟩
      have hneF : "--file-name".toList ≠ arg := by
        intro hc; rw [← hc, hF] at hsd; exact absurd hsd (by decide)
      have hneU : "--update".toList ≠ arg := by
        intro hc; rw [← hc, hU] at hsd; exact absurd hsd (by decide)
      obtain ⟨a, b, ⟨_, c2⟩, ⟨d1, d2⟩, ⟨e1, e2⟩⟩ := ih _ h
      have hc0 : rest.countP startsWithDigit = 0 := c2 hone
      refine ⟨?_, ?_, ⟨?_, ?_⟩, ⟨?_, ?_⟩, ⟨?_, ?_⟩⟩
      · intro t ht hst
        rcases List.mem_cons.mp ht with rfl | ht
        · exact hdig
        · exact a t ht hst
      · intro t ht hst
        rcases List.mem_cons.mp ht with rfl | ht
        · rw [hsd] at hst; exact absurd hst (by decide)
        · exact b t ht hst
      · rw [List.countP_cons_of_pos _ _ hsd, hc0]
      · intro hc; exact absurd hs0 hc
      · rw [List.count_cons_of_ne hneF]; exact d1
      · rw [List.count_cons_of_ne hneF]; exact d2
      · rw [List.count_cons_of_ne hneU]; exact e1
      · rw [List.count_cons_of_ne hneU]; exact e2
    · obtain ⟨hname, rfl⟩ := h5
      obtain ⟨a, b, ⟨c1, c2⟩, ⟨_, d2⟩, ⟨e1, e2⟩⟩ := ih _ h
      have hd0 : rest.count "--file-name".toList = 0 := d2 hone
      have hnot : ¬ startsWithDigit "--file-name".toList = true := by rw [hF]; decide
      refine ⟨?_, ?_, ⟨?_, ?_⟩, ⟨?_, ?_⟩, ⟨?_, ?_⟩⟩
      · intro t ht hst
        rcases List.mem_cons.mp ht with rfl | ht
        · exact absurd hst hnot
        · exact a t ht hst
      · intro t ht hst
        rcases List.mem_cons.mp ht with rfl | ht
        · exact Or.inl rfl
        · exact b t ht hst
      · rw [List.countP_cons_of_neg _ _ hnot]; exact c1
      · rw [List.countP_cons_of_neg _ _ hnot]; exact c2
      · rw [List.count_cons_self, hd0]
      · intro hc; exact absurd hname hc
      · rw [List.count_cons_of_ne hFU.symm]; exact e1
      · rw [List.count_cons_of_ne hFU.symm]; exact e2
    · obtain ⟨hupd, rfl⟩ := h6
      obtain ⟨a, b, ⟨c1, c2⟩, ⟨d1, d2⟩, ⟨_, e2⟩⟩ := ih _ h
      have he0 : rest.count "--update".toList = 0 := e2 hone
      have hnot : ¬ startsWithDigit "--update".toList = true := by rw [hU]; decide
      refine ⟨?_, ?_, ⟨?_, ?_⟩, ⟨?_, ?_⟩, ⟨?_, ?_⟩⟩
      · intro t ht hst
        rcases List.mem_cons.mp ht with rfl | ht
        · exact absurd hst hnot
        · exact a t ht hst
      · intro t ht hst
        rcases List.mem_cons.mp ht with rfl | ht
        · exact Or.inr rfl
        · exact b t ht hst
      · rw [List.countP_cons_of_neg _ _ hnot]; exact c1
      · rw [List.countP_cons_of_neg _ _ hnot]; exact c2
      · rw [List.count_cons_of_ne hFU]; exact d1
      · rw [List.count_cons_of_ne hFU]; exact d2
      · rw [List.count_cons_self, he0]
      · intro hc; exact absurd hupd hc
    · exact absurd h hone

/-- A return of `readcommands` without error means the loop ended with
`error = 0`. -/
theorem readcommands_error_zero (w : Nat) (argv : List Text) (n0 : Nat)
    (h : (readcommands w argv n0).1 ≠ .ERROR_MODE) :
    (readcommandsLoop w argv.tail
      { error := 0, name := 0, numsaved := 0, update := 0, number := n0 }).error = 0 := by
  by_contra hc
  apply h
  unfold readcommands
  dsimp only
  by_cases hs : (readcommandsLoop w argv.tail
      { error := 0, name := 0, numsaved := 0, update := 0, number := n0 }).numsaved = 0
  · simp [hs]
  · simp [hs, hc]

/-! ## C18 -/

/-- C18: `readcommands` returns `ERROR_MODE` for every argument vector that
holds two tokens starting with a digit, or a token starting with a digit that
has a character that is no digit, or a token not starting with a digit that is
neither `--file-name` nor `--update`, or `--file-name` twice, or `--update`
twice. -/
theorem readcommands_rejects_malformed (w : Nat) (prog : Text) (args : List Text) (n0 : Nat)
    (h : 2 ≤ args.countP startsWithDigit ∨
      (∃ t ∈ args, startsWithDigit t = true ∧ ∃ c ∈ t, isdigit c = false) ∨
      (∃ t ∈ args, startsWithDigit t = false ∧ t ≠ "--file-name".toList
        ∧ t ≠ "--update".toList) ∨
      2 ≤ args.count "--file-name".toList ∨ 2 ≤ args.count "--update".toList) :
    (readcommands w (prog :: args) n0).1 = .ERROR_MODE := by
  by_contra hmode
  have herr := readcommands_error_zero w (prog :: args) n0 hmode
  rw [List.tail_cons] at herr
  obtain ⟨a, b, ⟨c1, _⟩, ⟨d1, _⟩, ⟨e1, _⟩⟩ := readcommandsLoop_no_error w args _ herr
  rcases h with h | ⟨t, ht, hst, c, hc, hcd⟩ | ⟨t, ht, hst, hnF, hnU⟩ | h | h
  · omega
  · rw [a t ht hst c hc] at hcd
    exact absurd hcd (by decide)
  · rcases b t ht hst with h1 | h1
    · exact hnF h1
    · exact hnU h1
  · omega
  · omega

/-- Witness of C18: the single argument `3a`. -/
theorem readcommands_rejects_malformed_witness :
    (readcommands 32 ("createlistofprimes".toList :: ["3a".toList]) 0).1 = .ERROR_MODE :=
  readcommands_rejects_malformed 32 "createlistofprimes".toList ["3a".toList] 0
    (Or.inr (Or.inl ⟨"3a".toList, by decide, by decide, 'a', by decide, by decide⟩))

/-- The examples of malformed argument vectors, evaluated on 32 bits. -/
theorem readcommands_malformed_examples :
    (readcommands 32 ["p".toList, "3".toList, "3".toList] 0).1 = .ERROR_MODE ∧
    (readcommands 32 ["p".toList, "3".toList, "--file-name".toList, "5".toList] 0).1
      = .ERROR_MODE ∧
    (readcommands 32 ["p".toList, "3a".toList] 0).1 = .ERROR_MODE ∧
    (readcommands 32 ["p".toList, "1.5".toList] 0).1 = .ERROR_MODE ∧
    (readcommands 32 ["p".toList, "-5".toList] 0).1 = .ERROR_MODE ∧
    (readcommands 32 ["p".toList, "+5".toList] 0).1 = .ERROR_MODE ∧
    (readcommands 32 ["p".toList, "3".toList, "".toList] 0).1 = .ERROR_MODE ∧
    (readcommands 32 ["p".toList, "--file-name".toList, "3".toList, "--file-name".toList] 0).1
      = .ERROR_MODE ∧
    (readcommands 32 ["p".toList, "--update".toList, "--update".toList, "3".toList] 0).1
      = .ERROR_MODE := by
  decide

/-! ## The builder loop, pass by pass -/

/-- The loop of `main` is its body repeated while the condition holds. -/
theorem builderLoop_eq_body (w number fuel : Nat) (s : Builder) :
    builderLoop w number (fuel + 1) s =
      if s.testnumber ≤ number then
        match builderBody w s with
        | .fault f => .fault f
        | .ok s1 => builderLoop w number fuel s1
      else .ok s := by
  rw [builderLoop]
  unfold builderBody
  cases isprime s.testnumber s.primeslist with
  | fault f => rfl
  | ok answer =>
    dsimp only
    split_ifs <;> rfl

/-- The state after `k` passes is the state from which the loop goes on. -/
theorem builderLoop_of_builderAfter (w number : Nat) : ∀ (k fuel : Nat) (s s1 : Builder),
    builderAfter w number k s = .ok s1 →
    builderLoop w number (k + fuel) s = builderLoop w number fuel s1 := by
  intro k
  induction k with
  | zero =>
    intro fuel s s1 h
    simp only [builderAfter, Outcome.ok.injEq] at h
    rw [Nat.zero_add, h]
  | succ k ih =>
    intro fuel s s1 h
    rw [builderAfter] at h
    rw [show k + 1 + fuel = (k + fuel) + 1 by omega, builderLoop_eq_body]
    by_cases hc : s.testnumber ≤ number
    · rw [if_pos hc] at h ⊢
      cases hb : builderBody w s with
      | fault f => rw [hb] at h; simp at h
      | ok s2 =>
        rw [hb] at h
        exact ih fuel s2 s1 h
    · rw [if_neg hc] at h; simp at h

theorem builderAt_zero (listsize : Nat) :
    builderAt listsize 0 = ⟨List.replicate listsize 0, 0, 0⟩ := by
  simp [builderAt, primesBelow]

theorem builderBody_builderAt (w number listsize t : Nat) (hnum : number < ULONG_MAX w)
    (hcap : (primesBelow (number + 1)).length ≤ listsize) (ht : t ≤ number) :
    builderBody w (builderAt listsize t) = .ok (builderAt listsize (t + 1)) := by
  have hpow : number + 1 < 2 ^ w := by unfold ULONG_MAX at hnum; omega
  have hlen : (primesBelow (t + 1)).length ≤ listsize :=
    Nat.le_trans (primesBelow_length_mono (by omega)) hcap
  have hlt : (primesBelow (t + 1)).length ≤ t + 1 := primesBelow_length_le _
  have htest : (t + 1) % 2 ^ w = t + 1 := Nat.mod_eq_of_lt (by omega)
  have hip := isprime_primesBelow t t
    (List.replicate (listsize - (primesBelow t).length) 0) (Nat.le_refl _) (Nat.le_succ _)
  unfold builderBody
  simp only [builderAt, hip]
  by_cases hp : Nat.Prime t
  · have hsucc : primesBelow (t + 1) = primesBelow t ++ [t] := by
      rw [primesBelow_succ, if_pos hp]
    rw [hsucc, List.length_append, List.length_singleton] at hlen hlt
    have hcnt : ((primesBelow t).length + 1) % 2 ^ w = (primesBelow t).length + 1 :=
      Nat.mod_eq_of_lt (by omega)
    have hk : listsize - (primesBelow t).length
        = (listsize - ((primesBelow t).length + 1)) + 1 := by omega
    have hin : (primesBelow t).length <
        (primesBelow t ++ List.replicate (listsize - (primesBelow t).length) 0).length := by
      rw [List.length_append, List.length_replicate]; omega
    have hone : (1 : Int) ≠ 0 := by decide
    rw [if_pos hp, if_pos hone, if_pos hin, htest, hcnt, hsucc, List.length_append,
      List.length_singleton]
    congr 2
    rw [hk, set_append_replicate]
  · have hsucc : primesBelow (t + 1) = primesBelow t := by
      rw [primesBelow_succ, if_neg hp, List.append_nil]
    have hzero : ¬ ((0 : Int) ≠ 0) := by decide
    rw [if_neg hp, if_neg hzero, htest, hsucc]

theorem builderAfter_builderAt (w number listsize : Nat) (hnum : number < ULONG_MAX w)
    (hcap : (primesBelow (number + 1)).length ≤ listsize) :
    ∀ k t : Nat, t + k ≤ number + 1 →
    builderAfter w number k (builderAt listsize t) = .ok (builderAt listsize (t + k)) := by
  intro k
  induction k with
  | zero => intro t _; rfl
  | succ k ih =>
    intro t ht
    have hle : (builderAt listsize t).testnumber ≤ number := by
      show t ≤ number
      omega
    rw [builderAfter, if_pos hle, builderBody_builderAt w number listsize t hnum hcap (by omega)]
    dsimp only
    rw [ih (t + 1) (by omega)]
    congr 2
    omega

/-- The state after `k` passes from the start of `main`, for `k ≤ number + 1`. -/
theorem builderAfter_start (w number listsize k : Nat) (hnum : number < ULONG_MAX w)
    (hcap : (primesBelow (number + 1)).length ≤ listsize) (hk : k ≤ number + 1) :
    builderAfter w number k ⟨List.replicate listsize 0, 0, 0⟩ = .ok (builderAt listsize k) := by
  have h := builderAfter_builderAt w number listsize hnum hcap k 0 (by omega)
  rw [builderAt_zero, Nat.zero_add] at h
  exact h

theorem drop_builderAt (listsize t : Nat) :
    (builderAt listsize t).primeslist.drop (builderAt listsize t).counter
      = List.replicate (listsize - (builderAt listsize t).counter) 0 := by
  simp [builderAt]

theorem length_builderAt (listsize t : Nat) (h : (primesBelow t).length ≤ listsize) :
    (builderAt listsize t).primeslist.length = listsize := by
  simp only [builderAt, List.length_append, List.length_replicate]
  omega

theorem primesBelow_head (t x : Nat) (h : (primesBelow t).head? = some x) : x = 2 := by
  have hs := primesBelow_sorted t
  cases hl : primesBelow t with
  | nil => rw [hl] at h; simp at h
  | cons y tl =>
    rw [hl] at h hs
    simp only [List.head?_cons, Option.some.injEq] at h
    subst h
    have hy : y ∈ primesBelow t := by rw [hl]; exact List.mem_cons_self _ _
    have hyp := mem_primesBelow.mp hy
    have h2 : 2 ∈ primesBelow t := mem_primesBelow.mpr ⟨by have := hyp.2.two_le; omega, Nat.prime_two⟩
    rw [hl] at h2
    rcases List.mem_cons.mp h2 with h3 | h3
    · exact h3.symm
    · have := List.rel_of_sorted_cons hs 2 h3
      have := hyp.2.two_le
      omega

theorem getElem?_builderAt (listsize t i : Nat) (hi : (builderAt listsize t).counter ≤ i)
    (hlt : i < listsize) : (builderAt listsize t).primeslist[i]? = some 0 := by
  simp only [builderAt] at hi ⊢
  rw [List.getElem?_append_right hi, List.getElem?_replicate, if_pos (by omega)]

/-! ## C16 -/

/-- C16: for every limit below `ULONG_MAX`, on a zero-filled block with at least
as many cells as there are primes up to the limit, after every number `k` of
passes of the builder loop (`k ≤ limit + 1`): `testnumber = k`,
`primeslist[0..counter)` is strictly increasing without duplicates, its first
element, if any, is 2, it is the list of all primes smaller than `testnumber`,
every cell from index `counter` on is zero, and the next pass leaves the list
as it is or appends one element to it. -/
theorem builder_invariant (w limit listsize k : Nat) (hlimit : limit < ULONG_MAX w)
    (hcap : (primesUpTo limit).length ≤ listsize) (hk : k ≤ limit + 1) :
    ∃ s : Builder, builderAfter w limit k ⟨List.replicate listsize 0, 0, 0⟩ = .ok s ∧
      s.testnumber = k ∧
      (s.primeslist.take s.counter).Sorted (· < ·) ∧
      (s.primeslist.take s.counter).Nodup ∧
      (∀ x, (s.primeslist.take s.counter).head? = some x → x = 2) ∧
      s.primeslist.take s.counter = primesBelow s.testnumber ∧
      (∀ p, p ∈ s.primeslist.take s.counter ↔ p < s.testnumber ∧ refPrime p) ∧
      s.primeslist.length = listsize ∧
      (∀ i, s.counter ≤ i → i < listsize → s.primeslist[i]? = some 0) ∧
      (k ≤ limit → ∃ s1 : Builder,
        builderAfter w limit (k + 1) ⟨List.replicate listsize 0, 0, 0⟩ = .ok s1 ∧
        builderBody w s = .ok s1 ∧
        (s1.primeslist.take s1.counter = s.primeslist.take s.counter ∨
          s1.primeslist.take s1.counter = s.primeslist.take s.counter ++ [s.testnumber])) := by
  have htake := take_builderAt listsize k
  refine ⟨builderAt listsize k, builderAfter_start w limit listsize k hlimit hcap hk, rfl,
    ?_, ?_, ?_, htake, ?_, ?_, ?_, ?_⟩
  · rw [htake]; exact primesBelow_sorted k
  · rw [htake]; exact (primesBelow_sorted k).nodup
  · intro x hx
    rw [htake] at hx
    exact primesBelow_head k x hx
  · intro p
    rw [htake, mem_primesBelow, refPrime_iff_prime]
    rfl
  · exact length_builderAt listsize k
      (Nat.le_trans (primesBelow_length_mono hk) hcap)
  · intro i hi hlt
    exact getElem?_builderAt listsize k i hi hlt
  · intro hle
    refine ⟨builderAt listsize (k + 1),
      builderAfter_start w limit listsize (k + 1) hlimit hcap (by omega),
      builderBody_builderAt w limit listsize k hlimit hcap hle, ?_⟩
    rw [take_builderAt, htake, primesBelow_succ]
    by_cases hp : Nat.Prime k
    · right; rw [if_pos hp]; rfl
    · left; rw [if_neg hp, List.append_nil]

/-- Witness of C16: 32 bits, limit 10, a block of 6 cells, 8 passes. -/
theorem builder_invariant_witness :
    ∃ s : Builder, builderAfter 32 10 8 ⟨List.replicate 6 0, 0, 0⟩ = .ok s ∧
      s.testnumber = 8 ∧
      (s.primeslist.take s.counter).Sorted (· < ·) ∧
      (s.primeslist.take s.counter).Nodup ∧
      (∀ x, (s.primeslist.take s.counter).head? = some x → x = 2) ∧
      s.primeslist.take s.counter = primesBelow s.testnumber ∧
      (∀ p, p ∈ s.primeslist.take s.counter ↔ p < s.testnumber ∧ refPrime p) ∧
      s.primeslist.length = 6 ∧
      (∀ i, s.counter ≤ i → i < 6 → s.primeslist[i]? = some 0) ∧
      (8 ≤ 10 → ∃ s1 : Builder,
        builderAfter 32 10 (8 + 1) ⟨List.replicate 6 0, 0, 0⟩ = .ok s1 ∧
        builderBody 32 s = .ok s1 ∧
        (s1.primeslist.take s1.counter = s.primeslist.take s.counter ∨
          s1.primeslist.take s1.counter = s.primeslist.take s.counter ++ [s.testnumber])) :=
  builder_invariant 32 10 6 8 (by decide) (by decide) (by decide)

/-! ## C15 -/

/-- C15: for every limit below `ULONG_MAX`, on a zero-filled block with at least
as many cells as there are primes up to the limit, and every `testnumber` with
`5 < testnumber ≤ limit`: when the builder loop reaches `testnumber`, the filled
part `primeslist[0..counter)` holds all primes below `testnumber`, none of its
cells is zero and one of them is a prime above `ceilSqrt testnumber`; `isprime`
returns without fault, and it returns the same on the filled part alone, where
a read behind the last filled cell would be a fault. -/
theorem isprime_total_in_builder (w limit listsize testnumber : Nat)
    (hlimit : limit < ULONG_MAX w) (hcap : (primesUpTo limit).length ≤ listsize)
    (h5 : 5 < testnumber) (ht : testnumber ≤ limit) :
    ∃ s : Builder, builderAfter w limit testnumber ⟨List.replicate listsize 0, 0, 0⟩ = .ok s ∧
      s.testnumber = testnumber ∧
      s.primeslist.take s.counter = primesBelow testnumber ∧
      (∃ r ∈ s.primeslist.take s.counter, refPrime r ∧ ceilSqrt testnumber < r) ∧
      (∀ p ∈ s.primeslist.take s.counter, p ≠ 0) ∧
      isprime testnumber s.primeslist = .ok (if refPrime testnumber then 1 else 0) ∧
      isprime testnumber (s.primeslist.take s.counter) = isprime testnumber s.primeslist ∧
      isprimeScan testnumber (ceilSqrt testnumber) (s.primeslist.take s.counter)
        = .ok (if refPrime testnumber then 1 else 0) := by
  have htake := take_builderAt listsize testnumber
  have hfull : isprime testnumber (builderAt listsize testnumber).primeslist
      = .ok (if refPrime testnumber then 1 else 0) := by
    rw [← ite_refPrime]
    exact isprime_primesBelow testnumber testnumber _ (Nat.le_refl _) (Nat.le_succ _)
  have hpre : isprime testnumber (primesBelow testnumber)
      = .ok (if refPrime testnumber then 1 else 0) := by
    have h := isprime_primesBelow testnumber testnumber [] (Nat.le_refl _) (Nat.le_succ _)
    rw [List.append_nil, ite_refPrime] at h
    exact h
  refine ⟨builderAt listsize testnumber,
    builderAfter_start w limit listsize testnumber hlimit hcap (by omega), rfl, htake,
    ?_, ?_, hfull, ?_, ?_⟩
  · obtain ⟨r, hr, hlt, hrn⟩ := exists_prime_above_ceilSqrt testnumber h5
    rw [htake]
    exact ⟨r, mem_primesBelow.mpr ⟨hrn, hr⟩, (refPrime_iff_prime r).mpr hr, hlt⟩
  · intro p hp
    rw [htake] at hp
    exact primesBelow_ne_zero hp
  · rw [htake, hpre, hfull]
  · rw [htake]
    unfold isprime at hpre
    rw [if_neg (by omega)] at hpre
    exact hpre

/-- Witness of C15: 32 bits, limit 10, a block of 6 cells, `testnumber` 7. -/
theorem isprime_total_in_builder_witness :
    ∃ s : Builder, builderAfter 32 10 7 ⟨List.replicate 6 0, 0, 0⟩ = .ok s ∧
      s.testnumber = 7 ∧
      s.primeslist.take s.counter = primesBelow 7 ∧
      (∃ r ∈ s.primeslist.take s.counter, refPrime r ∧ ceilSqrt 7 < r) ∧
      (∀ p ∈ s.primeslist.take s.counter, p ≠ 0) ∧
      isprime 7 s.primeslist = .ok (if refPrime 7 then 1 else 0) ∧
      isprime 7 (s.primeslist.take s.counter) = isprime 7 s.primeslist ∧
      isprimeScan 7 (ceilSqrt 7) (s.primeslist.take s.counter)
        = .ok (if refPrime 7 then 1 else 0) :=
  isprime_total_in_builder 32 10 6 7 (by decide) (by decide) (by decide) (by decide)

/-! ## C17 -/

/-- C17: a limit that `readcommands` stores on a return without error is above
0 and below `ULONG_MAX`, so it is not `ULONG_MAX` (a numeral of that value is
turned into 0 by `strtoNumber`).  For such a limit, on a zero-filled block with
at least as many cells as there are primes up to the limit, after `k ≤ limit`
passes `testnumber = k` and the condition `testnumber <= number` holds; after
`limit + 1` passes `testnumber = limit + 1 < 2 ^ w`, not wrapped, and the
condition fails: the loop returns with any fuel of at least `limit + 2`.  With
`number = ULONG_MAX` the loop never returns, and `ULONG_MAX` is the only value
that every `testnumber` below `2 ^ w` stays under. -/
theorem builder_terminates_for_accepted_limit (w : Nat) (argv : List Text) (n0 listsize : Nat)
    (haccept : (readcommands w argv n0).1 ≠ .ERROR_MODE)
    (hcap : (primesUpTo (readcommands w argv n0).2).length ≤ listsize) :
    0 < (readcommands w argv n0).2 ∧
    (readcommands w argv n0).2 < ULONG_MAX w ∧
    (∀ numeral : Text, numeral ≠ [] → (∀ c ∈ numeral, isdigit c = true) →
      digitsValue numeral = ULONG_MAX w → strtoNumber w numeral = 0) ∧
    (∀ k, k ≤ (readcommands w argv n0).2 →
      ∃ s : Builder, builderAfter w (readcommands w argv n0).2 k
          ⟨List.replicate listsize 0, 0, 0⟩ = .ok s ∧
        s.testnumber = k ∧ s.testnumber ≤ (readcommands w argv n0).2) ∧
    (∃ s : Builder, builderAfter w (readcommands w argv n0).2 ((readcommands w argv n0).2 + 1)
          ⟨List.replicate listsize 0, 0, 0⟩ = .ok s ∧
        s.testnumber = (readcommands w argv n0).2 + 1 ∧ s.testnumber < 2 ^ w ∧
        ¬ s.testnumber ≤ (readcommands w argv n0).2 ∧
        ∀ fuel, (readcommands w argv n0).2 + 2 ≤ fuel →
          builder w (List.replicate listsize 0) (readcommands w argv n0).2 fuel = .ok s) ∧
    (∀ (fuel : Nat) (block : List Nat) (r : Builder),
      builder w block (ULONG_MAX w) fuel ≠ .ok r) ∧
    (∀ number, number ≤ ULONG_MAX w →
      ((∀ t, t < 2 ^ w → t ≤ number) ↔ number = ULONG_MAX w)) := by
  obtain ⟨hpos, hlt⟩ := readcommands_stored_range w argv n0 haccept
  have hpow : 0 < 2 ^ w := by positivity
  refine ⟨hpos, hlt, ?_, ?_, ?_, ?_, ?_⟩
  · intro numeral hne hdigits hv
    rw [strtoNumber_of_digits w numeral hne hdigits, if_neg (by omega)]
  · intro k hk
    exact ⟨builderAt listsize k,
      builderAfter_start w _ listsize k hlt hcap (by omega), rfl, hk⟩
  · refine ⟨builderAt listsize ((readcommands w argv n0).2 + 1),
      builderAfter_start w _ listsize _ hlt hcap (Nat.le_refl _), rfl, ?_, ?_, ?_⟩
    · show (readcommands w argv n0).2 + 1 < 2 ^ w
      unfold ULONG_MAX at hlt
      omega
    · show ¬ (readcommands w argv n0).2 + 1 ≤ (readcommands w argv n0).2
      omega
    · intro fuel hfuel
      exact builder_eq w _ listsize fuel hlt hcap hfuel
  · intro fuel block r
    exact builderLoop_never_returns_at_ULONG_MAX w fuel _ r hpow
  · intro number hle
    unfold ULONG_MAX at hle ⊢
    constructor
    · intro h
      have := h (2 ^ w - 1) (by omega)
      omega
    · intro h t ht
      omega

/-- Witness of C17: 32 bits, the argument `10`, a block of 6 cells. -/
theorem builder_terminates_for_accepted_limit_witness :
    0 < (readcommands 32 ["createlistofprimes".toList, "10".toList] 0).2 ∧
    (readcommands 32 ["createlistofprimes".toList, "10".toList] 0).2 < ULONG_MAX 32 ∧
    (∀ numeral : Text, numeral ≠ [] → (∀ c ∈ numeral, isdigit c = true) →
      digitsValue numeral = ULONG_MAX 32 → strtoNumber 32 numeral = 0) ∧
    (∀ k, k ≤ (readcommands 32 ["createlistofprimes".toList, "10".toList] 0).2 →
      ∃ s : Builder, builderAfter 32 (readcommands 32 ["createlistofprimes".toList,
          "10".toList] 0).2 k ⟨List.replicate 6 0, 0, 0⟩ = .ok s ∧
        s.testnumber = k ∧
        s.testnumber ≤ (readcommands 32 ["createlistofprimes".toList, "10".toList] 0).2) ∧
    (∃ s : Builder, builderAfter 32 (readcommands 32 ["createlistofprimes".toList,
          "10".toList] 0).2
          ((readcommands 32 ["createlistofprimes".toList, "10".toList] 0).2 + 1)
          ⟨List.replicate 6 0, 0, 0⟩ = .ok s ∧
        s.testnumber = (readcommands 32 ["createlistofprimes".toList, "10".toList] 0).2 + 1 ∧
        s.testnumber < 2 ^ 32 ∧
        ¬ s.testnumber ≤ (readcommands 32 ["createlistofprimes".toList, "10".toList] 0).2 ∧
        ∀ fuel, (readcommands 32 ["createlistofprimes".toList, "10".toList] 0).2 + 2 ≤ fuel →
          builder 32 (List.replicate 6 0)
            (readcommands 32 ["createlistofprimes".toList, "10".toList] 0).2 fuel = .ok s) ∧
    (∀ (fuel : Nat) (block : List Nat) (r : Builder),
      builder 32 block (ULONG_MAX 32) fuel ≠ .ok r) ∧
    (∀ number, number ≤ ULONG_MAX 32 →
      ((∀ t, t < 2 ^ 32 → t ≤ number) ↔ number = ULONG_MAX 32)) :=
  builder_terminates_for_accepted_limit 32 ["createlistofprimes".toList, "10".toList] 0 6
    (by decide) (by decide)

/-! ## `main` -/

theorem readcommands_short_argv (w : Nat) (argv : List Text) (n0 : Nat)
    (h : argv.length ≤ 1) : readcommands w argv n0 = (.ERROR_MODE, n0) := by
  have ht : argv.tail = [] := by
    rcases argv with _ | ⟨a, _ | ⟨b, t⟩⟩
    · rfl
    · rfl
    · simp at h
  unfold readcommands
  rw [ht]
  simp [readcommandsLoop]

theorem argc_of_readcommands (w : Nat) (argv : List Text) (n0 : Nat)
    (h : (readcommands w argv n0).1 ≠ .ERROR_MODE) : (argv.length : Int) > 1 := by
  by_contra hc
  have hle : argv.length ≤ 1 := by omega
  rw [readcommands_short_argv w argv n0 hle] at h
  exact h rfl

theorem getfilename_some (n : Nat) (h : n < 10 ^ 80) :
    getfilename MAX_FILE_NAME_SIZE [] (some n) =
      .ok (.SUCCESS, FILE_NAME_LONG ++ decimal n ++ FILE_EXTENSION) := by
  have hlen := decimal_length_lt n h
  have h1 : FILE_NAME_LONG.length = 27 := by decide
  have h2 : FILE_EXTENSION.length = 4 := by decide
  have hs : ¬ (Status_t.SUCCESS.toInt < 0) := by decide
  unfold MAX_NUMBER_SIZE at hlen
  have c1 : strcat MAX_FILE_NAME_SIZE [] FILE_NAME_LONG = .ok FILE_NAME_LONG := by decide
  have c2 : strcat MAX_FILE_NAME_SIZE FILE_NAME_LONG (decimal n)
      = .ok (FILE_NAME_LONG ++ decimal n) := by
    unfold strcat MAX_FILE_NAME_SIZE
    rw [if_pos (by omega)]
  have c3 : strcat MAX_FILE_NAME_SIZE (FILE_NAME_LONG ++ decimal n) FILE_EXTENSION
      = .ok (FILE_NAME_LONG ++ decimal n ++ FILE_EXTENSION) := by
    unfold strcat MAX_FILE_NAME_SIZE
    rw [if_pos (by rw [List.length_append]; omega)]
  unfold getfilename
  simp only [Numbertostr_some n h]
  rw [if_neg hs, c1]
  dsimp only
  rw [c2]
  dsimp only
  rw [c3]

theorem getfilename_none :
    getfilename MAX_FILE_NAME_SIZE [] none = .ok (.SUCCESS, FILE_NAME_SHORT ++ FILE_EXTENSION) := by
  decide

theorem getElem?_builderAt_last (listsize t : Nat) (hcap : (primesBelow t).length < listsize) :
    (builderAt listsize t).primeslist[if (builderAt listsize t).counter > 0
        then (builderAt listsize t).counter - 1 else 0]? = some ((primesBelow t).getLastD 0) := by
  rw [builderAt_block listsize t hcap]
  exact getElem?_last_cell (primesBelow t) _

/-- The end of `main` after the builder loop, when the list file opens. -/
theorem mainSave_builderAt (env : Env) (r : Run) (limit listsize : Nat)
    (hr : r.counter = (builderAt listsize (limit + 1)).counter)
    (hlimit : limit < ULONG_MAX env.w) (hdigits : ULONG_MAX env.w < 10 ^ 80)
    (hcap : (primesUpTo limit).length < listsize) (hopen : env.canOpen r.filename = true) :
    ∃ r1 : Run, mainSave env r (builderAt listsize (limit + 1)).primeslist = .ok r1 ∧
      r1.mode = r.mode ∧ r1.number = r.number ∧ r1.filename = r.filename ∧
      r1.primeslist = r.primeslist ∧ r1.counter = r.counter ∧ r1.testnumber = r.testnumber ∧
      r1.logged = some ((primesUpTo limit).getLastD 0) ∧
      r1.files = (r.filename, listText limit)
        :: logFiles env.canOpen ((primesUpTo limit).getLastD 0) ∧
      r1.status = (saveprimeinlog env.canOpen ((primesUpTo limit).getLastD 0)).1 ∧
      r1.exitcode = (if (saveprimeinlog env.canOpen ((primesUpTo limit).getLastD 0)).1.toInt < 0
        then -7 else 0) := by
  have hs := savelist_builderAt env.w limit listsize env.canOpen r.filename hlimit hdigits
    hcap hopen
  have hl := getElem?_builderAt_last listsize (limit + 1) hcap
  unfold mainSave
  rw [hr, hs]
  dsimp only
  rw [if_pos rfl, hl]
  dsimp only
  rw [if_neg (show ¬ Status_t.SUCCESS = Status_t.FILE_ERROR by decide)]
  by_cases hlog : (saveprimeinlog env.canOpen ((primesBelow (limit + 1)).getLastD 0)).1.toInt < 0
  · rw [if_pos hlog]
    refine ⟨_, rfl, rfl, rfl, rfl, rfl, rfl, rfl, rfl, rfl, rfl, ?_⟩
    show (-7 : Int) = _
    unfold primesUpTo
    rw [if_pos hlog]
  · rw [if_neg hlog]
    refine ⟨_, rfl, rfl, rfl, rfl, rfl, rfl, rfl, rfl, rfl, rfl, ?_⟩
    show (0 : Int) = _
    unfold primesUpTo
    rw [if_neg hlog]

/-- The part of `main` from the test of the file name status on, when the
allocation succeeds, the block is large enough and the list file opens. -/
theorem mainBuild_ok (env : Env) (r : Run) (limit : Nat)
    (hstatus : r.status = .SUCCESS) (hnum : r.number = limit) (hc : r.counter = 0)
    (ht : r.testnumber = 0) (halloc : env.allocates = true)
    (hlimit : limit < ULONG_MAX env.w) (hdigits : ULONG_MAX env.w < 10 ^ 80)
    (hcap : (primesUpTo limit).length < cellsFor env.pnt limit)
    (hfuel : limit + 2 ≤ env.fuel) (hopen : env.canOpen r.filename = true) :
    ∃ r1 : Run, mainBuild env r = .ok r1 ∧
      r1.mode = r.mode ∧ r1.number = limit ∧ r1.filename = r.filename ∧
      r1.primeslist = some (builderAt (cellsFor env.pnt limit) (limit + 1)).primeslist ∧
      r1.counter = (primesUpTo limit).length ∧ r1.testnumber = limit + 1 ∧
      r1.logged = some ((primesUpTo limit).getLastD 0) ∧
      r1.files = (r.filename, listText limit)
        :: logFiles env.canOpen ((primesUpTo limit).getLastD 0) ∧
      r1.status = (saveprimeinlog env.canOpen ((primesUpTo limit).getLastD 0)).1 ∧
      r1.exitcode = (if (saveprimeinlog env.canOpen ((primesUpTo limit).getLastD 0)).1.toInt < 0
        then -7 else 0) := by
  have hb := builder_eq env.w limit (cellsFor env.pnt limit) env.fuel hlimit
    (Nat.le_of_lt hcap) hfuel
  unfold builder at hb
  have hm : makeprimesarray env.pnt env.allocates limit
      = some (List.replicate (cellsFor env.pnt limit) 0) := by
    unfold makeprimesarray cellsFor
    rw [halloc]
    rfl
  rcases r with ⟨e, m, st, num, fn, pl, c, tn, out, fs, lg⟩
  dsimp only at hstatus hnum hc ht hopen
  subst hstatus hnum hc ht
  unfold mainBuild
  dsimp only
  rw [if_neg (by decide), hm]
  dsimp only
  rw [hb]
  dsimp only
  exact mainSave_builderAt env _ num (cellsFor env.pnt num) rfl hlimit hdigits hcap hopen

/-- A run of `main` in the modes `NEWNUM` and `NEWNONUM`, when the allocation
succeeds, the block is large enough and the list file opens. -/
theorem main_new_modes (env : Env) (argv : List Text)
    (hmode : (readcommands env.w argv 0).1 = .NEWNUM ∨ (readcommands env.w argv 0).1 = .NEWNONUM)
    (halloc : env.allocates = true) (hdigits : ULONG_MAX env.w < 10 ^ 80)
    (hcap : (primesUpTo (readcommands env.w argv 0).2).length
      < cellsFor env.pnt (readcommands env.w argv 0).2)
    (hfuel : (readcommands env.w argv 0).2 + 2 ≤ env.fuel)
    (hopen : env.canOpen
      (outputName (readcommands env.w argv 0).1 (readcommands env.w argv 0).2) = true) :
    ∃ r : Run, main env argv = .ok r ∧
      r.mode = (readcommands env.w argv 0).1 ∧
      r.number = (readcommands env.w argv 0).2 ∧
      r.filename = outputName (readcommands env.w argv 0).1 (readcommands env.w argv 0).2 ∧
      r.primeslist = some (builderAt (cellsFor env.pnt (readcommands env.w argv 0).2)
        ((readcommands env.w argv 0).2 + 1)).primeslist ∧
      r.counter = (primesUpTo (readcommands env.w argv 0).2).length ∧
      r.testnumber = (readcommands env.w argv 0).2 + 1 ∧
      r.logged = some ((primesUpTo (readcommands env.w argv 0).2).getLastD 0) ∧
      r.files = (outputName (readcommands env.w argv 0).1 (readcommands env.w argv 0).2,
          listText (readcommands env.w argv 0).2)
        :: logFiles env.canOpen ((primesUpTo (readcommands env.w argv 0).2).getLastD 0) ∧
      r.status = (saveprimeinlog env.canOpen
        ((primesUpTo (readcommands env.w argv 0).2).getLastD 0)).1 ∧
      r.exitcode = (if (saveprimeinlog env.canOpen
        ((primesUpTo (readcommands env.w argv 0).2).getLastD 0)).1.toInt < 0 then -7 else 0) := by
  have hne : (readcommands env.w argv 0).1 ≠ .ERROR_MODE := by
    rcases hmode with h | h <;> rw [h] <;> decide
  have hargc := argc_of_readcommands env.w argv 0 hne
  obtain ⟨_, hlimit⟩ := readcommands_stored_range env.w argv 0 hne
  have hsize : (readcommands env.w argv 0).2 < 10 ^ 80 := Nat.lt_trans hlimit hdigits
  unfold main
  rw [if_pos hargc]
  dsimp only
  rcases hmode with h | h
  · have hname : outputName (readcommands env.w argv 0).1 (readcommands env.w argv 0).2
        = FILE_NAME_LONG ++ decimal (readcommands env.w argv 0).2 ++ FILE_EXTENSION := by
      unfold outputName; rw [h, if_pos rfl]
    rw [hname] at hopen ⊢
    rw [h, if_neg (by decide), if_pos rfl, getfilename_some _ hsize]
    dsimp only
    exact mainBuild_ok env _ _ rfl rfl rfl rfl halloc hlimit hdigits hcap hfuel hopen
  · have hname : outputName (readcommands env.w argv 0).1 (readcommands env.w argv 0).2
        = FILE_NAME_SHORT ++ FILE_EXTENSION := by
      unfold outputName; rw [h, if_neg (by decide)]
    rw [hname] at hopen ⊢
    rw [h, if_neg (by decide), if_neg (by decide), if_pos rfl, getfilename_none]
    dsimp only
    exact mainBuild_ok env _ _ rfl rfl rfl rfl halloc hlimit hdigits hcap hfuel hopen

/-! ## C13 -/

/-- C13: for every argument vector that `readcommands` classifies as
`UPDTNONUM` or `UPDTNUM`, `main` returns -3 after printing the command error:
`filename` is still empty, `primeslist` is still the null pointer, `counter`
and `testnumber` are still 0, no file was opened and `saveprimeinlog` was not
called; the run is the same whatever the allocation, the files that can be
opened, the working directory and the fuel are. -/
theorem main_update_modes_stop (env : Env) (argv : List Text)
    (hmode : (readcommands env.w argv 0).1 = .UPDTNONUM ∨
      (readcommands env.w argv 0).1 = .UPDTNUM) :
    main env argv = .ok
      { exitcode := -3,
        mode := (readcommands env.w argv 0).1,
        status := .NULL_STATUS,
        number := (readcommands env.w argv 0).2,
        filename := [],
        primeslist := none,
        counter := 0,
        testnumber := 0,
        stdout := "\ncreatelistofprimes: command error (".toList
          ++ decimalInt (readcommands env.w argv 0).1.toInt ++ ")\n".toList,
        files := [],
        logged := none } ∧
    ∀ other : Env, other.w = env.w → main other argv = main env argv := by
  have key : ∀ e : Env, e.w = env.w → main e argv = .ok
      { exitcode := -3,
        mode := (readcommands env.w argv 0).1,
        status := .NULL_STATUS,
        number := (readcommands env.w argv 0).2,
        filename := [],
        primeslist := none,
        counter := 0,
        testnumber := 0,
        stdout := "\ncreatelistofprimes: command error (".toList
          ++ decimalInt (readcommands env.w argv 0).1.toInt ++ ")\n".toList,
        files := [],
        logged := none } := by
    intro e he
    have hne : (readcommands env.w argv 0).1 ≠ .ERROR_MODE := by
      rcases hmode with h | h <;> rw [h] <;> decide
    have hargc := argc_of_readcommands env.w argv 0 hne
    unfold main
    rw [if_pos hargc, he]
    dsimp only
    rcases hmode with h | h
    · rw [h, if_neg (by decide), if_neg (by decide), if_neg (by decide)]
    · rw [h, if_neg (by decide), if_neg (by decide), if_neg (by decide)]
  refine ⟨key env rfl, ?_⟩
  intro other hw
  rw [key other hw, key env rfl]

/-- Witness of C13: the arguments `30 --update`, with an allocation that would
fail, no file that opens and no fuel. -/
theorem main_update_modes_stop_witness :
    main ⟨32, fun _ => 0, false, fun _ => false, none, 0⟩
        ["createlistofprimes".toList, "30".toList, "--update".toList] = .ok
      { exitcode := -3,
        mode := (readcommands (Env.mk 32 (fun _ => 0) false (fun _ => false) none 0).w
          ["createlistofprimes".toList, "30".toList, "--update".toList] 0).1,
        status := .NULL_STATUS,
        number := (readcommands (Env.mk 32 (fun _ => 0) false (fun _ => false) none 0).w
          ["createlistofprimes".toList, "30".toList, "--update".toList] 0).2,
        filename := [],
        primeslist := none,
        counter := 0,
        testnumber := 0,
        stdout := "\ncreatelistofprimes: command error (".toList
          ++ decimalInt (readcommands (Env.mk 32 (fun _ => 0) false (fun _ => false) none 0).w
            ["createlistofprimes".toList, "30".toList, "--update".toList] 0).1.toInt
          ++ ")\n".toList,
        files := [],
        logged := none } ∧
    ∀ other : Env, other.w = (Env.mk 32 (fun _ => 0) false (fun _ => false) none 0).w →
      main other ["createlistofprimes".toList, "30".toList, "--update".toList]
        = main ⟨32, fun _ => 0, false, fun _ => false, none, 0⟩
            ["createlistofprimes".toList, "30".toList, "--update".toList] :=
  main_update_modes_stop ⟨32, fun _ => 0, false, fun _ => false, none, 0⟩
    ["createlistofprimes".toList, "30".toList, "--update".toList] (by decide)

/-- The run of C13 on the arguments `30 --update` and `--update 30 --file-name`,
evaluated: exit code -3, modes 2 and 3 in the message. -/
theorem main_update_modes_examples :
    main ⟨32, fun _ => 14, true, fun _ => true, none, 40⟩
        ["createlistofprimes".toList, "30".toList, "--update".toList] = .ok
      { exitcode := -3, mode := .UPDTNONUM, status := .NULL_STATUS, number := 30, filename := [],
        primeslist := none, counter := 0, testnumber := 0,
        stdout := "\ncreatelistofprimes: command error (2)\n".toList, files := [],
        logged := none } ∧
    main ⟨32, fun _ => 14, true, fun _ => true, none, 40⟩
        ["createlistofprimes".toList, "--update".toList, "30".toList, "--file-name".toList] = .ok
      { exitcode := -3, mode := .UPDTNUM, status := .NULL_STATUS, number := 30, filename := [],
        primeslist := none, counter := 0, testnumber := 0,
        stdout := "\ncreatelistofprimes: command error (3)\n".toList, files := [],
        logged := none } := by
  decide

/-! ## C12 -/

theorem saveprimeinlog_eq (canOpen : Text → Bool) (prime : Nat) (h : prime < 10 ^ 80) :
    saveprimeinlog canOpen prime =
      if canOpen PRIME_LOG_FILE_NAME = true then (.SUCCESS, some (decimal prime))
      else (.FILE_ERROR, none) := by
  unfold saveprimeinlog
  by_cases hc : canOpen PRIME_LOG_FILE_NAME = true
  · rw [hc, if_pos rfl, writenumber_ok [] prime h]
    simp [Status_t.toInt]
  · rw [if_neg hc]
    simp only [Bool.not_eq_true] at hc
    rw [hc]
    rfl

/-- C12: for every numeral made of digits with `0 < value < ULONG_MAX`, when
the allocation succeeds, the block is large enough and both list files open,
the runs of `main` on `numeral --file-name` and on `numeral` store the same
limit, leave the same block, counter and prime sequence, write the same text to
the list file and the same log, and return the same value; the mode is `NEWNUM`
with the file name `lists\list_of_primes_up_to_` ++ decimal(limit) ++ `.txt` in
the first run, `NEWNONUM` with `lists\list_of_primes.txt` in the second. -/
theorem file_name_flag_changes_only_the_name (env : Env) (prog numeral : Text)
    (hne : numeral ≠ []) (hdigits : ∀ c ∈ numeral, isdigit c = true)
    (hpos : 0 < digitsValue numeral) (hmax : digitsValue numeral < ULONG_MAX env.w)
    (halloc : env.allocates = true) (hsize : ULONG_MAX env.w < 10 ^ 80)
    (hcap : (primesUpTo (digitsValue numeral)).length < cellsFor env.pnt (digitsValue numeral))
    (hfuel : digitsValue numeral + 2 ≤ env.fuel)
    (hlong : env.canOpen ("lists\\list_of_primes_up_to_".toList
      ++ decimal (digitsValue numeral) ++ ".txt".toList) = true)
    (hshort : env.canOpen "lists\\list_of_primes.txt".toList = true) :
    ∃ r1 r2 : Run,
      main env [prog, numeral, "--file-name".toList] = .ok r1 ∧
      main env [prog, numeral] = .ok r2 ∧
      r1.mode = .NEWNUM ∧ r2.mode = .NEWNONUM ∧
      r1.number = digitsValue numeral ∧ r2.number = digitsValue numeral ∧
      r1.primeslist = r2.primeslist ∧ r1.counter = r2.counter ∧
      r1.testnumber = r2.testnumber ∧
      (∃ block : List Nat, r1.primeslist = some block ∧
        block.take r1.counter = primesUpTo (digitsValue numeral)) ∧
      r1.filename = "lists\\list_of_primes_up_to_".toList
        ++ decimal (digitsValue numeral) ++ ".txt".toList ∧
      r2.filename = "lists\\list_of_primes.txt".toList ∧
      (∃ (text : Text) (logs : List (Text × Text)),
        r1.files = (r1.filename, text) :: logs ∧ r2.files = (r2.filename, text) :: logs ∧
        text = listText (digitsValue numeral)) ∧
      r1.logged = r2.logged ∧ r1.status = r2.status ∧ r1.exitcode = r2.exitcode := by
  have hrc1 : readcommands env.w [prog, numeral, "--file-name".toList] 0
      = (.NEWNUM, digitsValue numeral) := by
    have h := readcommands_with_numeral env.w prog [] ["--file-name".toList] numeral 0
      (by decide) (by decide) hne hdigits
    rw [if_pos ⟨hpos, hmax⟩] at h
    exact h
  have hrc2 : readcommands env.w [prog, numeral] 0 = (.NEWNONUM, digitsValue numeral) := by
    have h := readcommands_with_numeral env.w prog [] [] numeral 0
      (by decide) (by decide) hne hdigits
    rw [if_pos ⟨hpos, hmax⟩] at h
    exact h
  have hn1 : outputName .NEWNUM (digitsValue numeral)
      = "lists\\list_of_primes_up_to_".toList ++ decimal (digitsValue numeral)
        ++ ".txt".toList := rfl
  have hn2 : outputName .NEWNONUM (digitsValue numeral) = "lists\\list_of_primes.txt".toList := by
    unfold outputName
    rw [if_neg (by decide)]
    decide
  obtain ⟨r1, a1, a2, a3, a4, a5, a6, a7, a8, a9, a10, a11⟩ :=
    main_new_modes env [prog, numeral, "--file-name".toList]
      (by rw [hrc1]; exact Or.inl rfl) halloc hsize (by rw [hrc1]; exact hcap)
      (by rw [hrc1]; exact hfuel) (by rw [hrc1, hn1]; exact hlong)
  obtain ⟨r2, b1, b2, b3, b4, b5, b6, b7, b8, b9, b10, b11⟩ :=
    main_new_modes env [prog, numeral] (by rw [hrc2]; exact Or.inr rfl) halloc hsize
      (by rw [hrc2]; exact hcap) (by rw [hrc2]; exact hfuel) (by rw [hrc2, hn2]; exact hshort)
  rw [hrc1] at a2 a3 a4 a5 a6 a7 a8 a9 a10 a11
  rw [hrc2] at b2 b3 b4 b5 b6 b7 b8 b9 b10 b11
  dsimp only at a2 a3 a4 a5 a6 a7 a8 a9 a10 a11 b2 b3 b4 b5 b6 b7 b8 b9 b10 b11
  rw [hn1] at a4 a9
  rw [hn2] at b4 b9
  refine ⟨r1, r2, a1, b1, a2, b2, a3, b3, ?_, ?_, ?_, ?_, a4, b4, ?_, ?_, ?_, ?_⟩
  · rw [a5, b5]
  · rw [a6, b6]
  · rw [a7, b7]
  · refine ⟨_, a5, ?_⟩
    rw [a6]
    have := take_builderAt (cellsFor env.pnt (digitsValue numeral)) (digitsValue numeral + 1)
    exact this
  · refine ⟨listText (digitsValue numeral),
      logFiles env.canOpen ((primesUpTo (digitsValue numeral)).getLastD 0), ?_, ?_, rfl⟩
    · rw [a9, a4]
    · rw [b9, b4]
  · rw [a8, b8]
  · rw [a10, b10]
  · rw [a11, b11]

/-- Witness of C12: 32 bits, the numeral `30`, a block of 14 cells. -/
theorem file_name_flag_changes_only_the_name_witness :
    ∃ r1 r2 : Run,
      main ⟨32, fun _ => 14, true, fun _ => true, none, 40⟩
        ["createlistofprimes".toList, "30".toList, "--file-name".toList] = .ok r1 ∧
      main ⟨32, fun _ => 14, true, fun _ => true, none, 40⟩
        ["createlistofprimes".toList, "30".toList] = .ok r2 ∧
      r1.mode = .NEWNUM ∧ r2.mode = .NEWNONUM ∧
      r1.number = digitsValue "30".toList ∧ r2.number = digitsValue "30".toList ∧
      r1.primeslist = r2.primeslist ∧ r1.counter = r2.counter ∧
      r1.testnumber = r2.testnumber ∧
      (∃ block : List Nat, r1.primeslist = some block ∧
        block.take r1.counter = primesUpTo (digitsValue "30".toList)) ∧
      r1.filename = "lists\\list_of_primes_up_to_".toList
        ++ decimal (digitsValue "30".toList) ++ ".txt".toList ∧
      r2.filename = "lists\\list_of_primes.txt".toList ∧
      (∃ (text : Text) (logs : List (Text × Text)),
        r1.files = (r1.filename, text) :: logs ∧ r2.files = (r2.filename, text) :: logs ∧
        text = listText (digitsValue "30".toList)) ∧
      r1.logged = r2.logged ∧ r1.status = r2.status ∧ r1.exitcode = r2.exitcode :=
  file_name_flag_changes_only_the_name ⟨32, fun _ => 14, true, fun _ => true, none, 40⟩
    "createlistofprimes".toList "30".toList (by decide) (by decide) (by decide) (by decide)
    rfl (by decide) (by decide) (by decide) rfl rfl

/-! ## C14 -/

/-- C14: for every argument vector with an accepted limit in the mode `NEWNUM`
or `NEWNONUM`, when the allocation succeeds, the block is large enough and the
list file opens (so that the list is saved), `main` calls `saveprimeinlog` with
one value: the largest prime up to the limit when `limit ≥ 2`, and the zero of
the cell `primeslist[0]` when `limit = 1`.  `saveprimeinlog` writes that value
to the log as a numeral and nothing else, when the log opens. -/
theorem main_logs_largest_prime (env : Env) (argv : List Text)
    (hmode : (readcommands env.w argv 0).1 = .NEWNUM ∨ (readcommands env.w argv 0).1 = .NEWNONUM)
    (halloc : env.allocates = true) (hsize : ULONG_MAX env.w < 10 ^ 80)
    (hcap : (primesUpTo (readcommands env.w argv 0).2).length
      < cellsFor env.pnt (readcommands env.w argv 0).2)
    (hfuel : (readcommands env.w argv 0).2 + 2 ≤ env.fuel)
    (hopen : env.canOpen
      (outputName (readcommands env.w argv 0).1 (readcommands env.w argv 0).2) = true) :
    ∃ (r : Run) (prime : Nat) (block : List Nat),
      main env argv = .ok r ∧ r.number = (readcommands env.w argv 0).2 ∧
      r.primeslist = some block ∧ r.logged = some prime ∧
      r.files.head? = some (r.filename, listText r.number) ∧
      block[if r.counter > 0 then r.counter - 1 else 0]? = some prime ∧
      saveprimeinlog env.canOpen prime =
        (if env.canOpen PRIME_LOG_FILE_NAME = true then (.SUCCESS, some (decimal prime))
          else (.FILE_ERROR, none)) ∧
      (env.canOpen PRIME_LOG_FILE_NAME = true →
        r.files = [(r.filename, listText r.number), (PRIME_LOG_FILE_NAME, decimal prime)] ∧
        r.exitcode = 0) ∧
      (2 ≤ r.number → refPrime prime ∧ prime ≤ r.number ∧
        ∀ p, refPrime p → p ≤ r.number → p ≤ prime) ∧
      (r.number = 1 → prime = 0 ∧ r.counter = 0 ∧ block[0]? = some 0) := by
  have hne : (readcommands env.w argv 0).1 ≠ .ERROR_MODE := by
    rcases hmode with h | h <;> rw [h] <;> decide
  obtain ⟨_, hlimit⟩ := readcommands_stored_range env.w argv 0 hne
  obtain ⟨r, a1, a2, a3, a4, a5, a6, a7, a8, a9, a10, a11⟩ :=
    main_new_modes env argv hmode halloc hsize hcap hfuel hopen
  generalize (readcommands env.w argv 0).2 = limit at *
  generalize (readcommands env.w argv 0).1 = mode at *
  have hmem : ∀ p ∈ primesUpTo limit, p < 10 ^ 80 := by
    intro p hp
    have := (mem_primesUpTo.mp hp).1
    omega
  have hlast : (primesUpTo limit).getLastD 0 < 10 ^ 80 := by
    by_cases hnil : primesUpTo limit = []
    · rw [hnil]; simp
    · exact hmem _ (getLastD_mem _ hnil)
  have hlog := saveprimeinlog_eq env.canOpen ((primesUpTo limit).getLastD 0) hlast
  have hcell := getElem?_builderAt_last (cellsFor env.pnt limit) (limit + 1) hcap
  refine ⟨r, (primesUpTo limit).getLastD 0, _, a1, a3, a5, a8, ?_, ?_, hlog, ?_, ?_, ?_⟩
  · rw [a9, a4, a3]; rfl
  · rw [a6]; exact hcell
  · intro hcan
    rw [hlog, if_pos hcan] at a11
    rw [a9, a4, a3]
    refine ⟨?_, ?_⟩
    · unfold logFiles
      rw [hlog, if_pos hcan]
    · rw [a11]
      exact if_neg (show ¬ Status_t.SUCCESS.toInt < 0 by decide)
  · rw [a3]
    intro h2
    have hnil : primesUpTo limit ≠ [] := by
      intro hc
      have h2mem : 2 ∈ primesUpTo limit := mem_primesUpTo.mpr ⟨h2, by decide⟩
      rw [hc] at h2mem
      simp at h2mem
    have hm := mem_primesUpTo.mp (getLastD_mem _ hnil)
    refine ⟨hm.2, hm.1, ?_⟩
    intro p hp hle
    exact sorted_le_getLastD _ (primesBelow_sorted _) p (mem_primesUpTo.mpr ⟨hle, hp⟩)
  · rw [a3]
    intro h1
    subst h1
    have hp1 : primesUpTo 1 = [] := by decide
    refine ⟨by rw [hp1]; rfl, by rw [a6, hp1]; rfl, ?_⟩
    have := hcell
    rw [show (builderAt (cellsFor env.pnt 1) (1 + 1)).counter = 0 from by
      simp only [builderAt]; exact congrArg List.length hp1] at this
    rw [show (primesBelow (1 + 1)).getLastD 0 = 0 from by
      have : primesBelow (1 + 1) = [] := hp1
      rw [this]; rfl] at this
    exact this

/-- Witness of C14: 32 bits, the argument `10`, a block of 6 cells. -/
theorem main_logs_largest_prime_witness :
    ∃ (r : Run) (prime : Nat) (block : List Nat),
      main ⟨32, fun _ => 6, true, fun _ => true, none, 20⟩
        ["createlistofprimes".toList, "10".toList] = .ok r ∧
      r.number = (readcommands (Env.mk 32 (fun _ => 6) true (fun _ => true) none 20).w
        ["createlistofprimes".toList, "10".toList] 0).2 ∧
      r.primeslist = some block ∧ r.logged = some prime ∧
      r.files.head? = some (r.filename, listText r.number) ∧
      block[if r.counter > 0 then r.counter - 1 else 0]? = some prime ∧
      saveprimeinlog (Env.mk 32 (fun _ => 6) true (fun _ => true) none 20).canOpen prime =
        (if (Env.mk 32 (fun _ => 6) true (fun _ => true) none 20).canOpen PRIME_LOG_FILE_NAME
            = true then (.SUCCESS, some (decimal prime))
          else (.FILE_ERROR, none)) ∧
      ((Env.mk 32 (fun _ => 6) true (fun _ => true) none 20).canOpen PRIME_LOG_FILE_NAME = true →
        r.files = [(r.filename, listText r.number), (PRIME_LOG_FILE_NAME, decimal prime)] ∧
        r.exitcode = 0) ∧
      (2 ≤ r.number → refPrime prime ∧ prime ≤ r.number ∧
        ∀ p, refPrime p → p ≤ r.number → p ≤ prime) ∧
      (r.number = 1 → prime = 0 ∧ r.counter = 0 ∧ block[0]? = some 0) :=
  main_logs_largest_prime ⟨32, fun _ => 6, true, fun _ => true, none, 20⟩
    ["createlistofprimes".toList, "10".toList] (by decide) rfl (by decide) (by decide)
    (by decide) rfl

/-- The runs of `main` on the arguments `10` and `1`, evaluated: the log holds
7 and 0. -/
theorem main_log_examples :
    (match main ⟨32, fun _ => 6, true, fun _ => true, none, 20⟩
        ["createlistofprimes".toList, "10".toList] with
      | .ok r => (r.exitcode, r.logged, r.files)
      | .fault _ => (1, none, [])) =
      (0, some 7, [("lists\\list_of_primes.txt".toList, "quantity=4,last=7\n2\n3\n5\n7".toList),
        ("logs\\primelog".toList, "7".toList)]) ∧
    (match main ⟨32, fun _ => 6, true, fun _ => true, none, 20⟩
        ["createlistofprimes".toList, "1".toList] with
      | .ok r => (r.exitcode, r.logged, r.files)
      | .fault _ => (1, none, [])) =
      (0, some 0, [("lists\\list_of_primes.txt".toList, "quantity=0,last=0".toList),
        ("logs\\primelog".toList, "0".toList)]) := by
  decide

end CreateListOfPrimes
